import Mathlib

/-!
# Verification of the nistz256 P-256 scalar-multiplication core

Shallow embedding of `crypto/ec/p256-x86_64.c` (BoringSSL, nistz256 method):
Booth window recoding, the conditional-negation masking step, the fixed
Fermat inversion chain, the windowed multi-scalar multiplication, the
generator fast path, and projective-to-affine conversion.

The field-arithmetic and point-arithmetic primitives referenced by the C
file are implemented in assembly (not part of the C source); they are
modelled from the specification's stated contracts, as documented on each
such definition.
-/

set_option maxRecDepth 100000
set_option exponentiation.threshold 300

namespace Nistz256

/-! ### Definitions -/

/-- Bit mask of a 32-bit `unsigned`, the type used by the Booth recoders. -/
def u32Mask : Nat := 2 ^ 32 - 1

/-- `booth_recode_w5` from p256-x86_64.c (lines 117-126), translated
bit-operation by bit-operation on 32-bit unsigned arithmetic:
`s = ~((in >> 5) - 1); d = (1 << 6) - in - 1; d = (d & s) | (in & ~s);
d = (d >> 1) + (d & 1); return (d << 1) + (s & 1)`. -/
def booth_recode_w5 (input : Nat) : Nat :=
  let s : Nat := u32Mask - ((input >>> 5) + u32Mask) % 2 ^ 32
  let d : Nat := (2 ^ 32 + 2 ^ 6 - 1 - input % 2 ^ 32) % 2 ^ 32
  let d : Nat := (d &&& s) ||| (input &&& (u32Mask - s))
  let d : Nat := (d >>> 1) + (d &&& 1)
  (d <<< 1) + (s &&& 1)

/-- `booth_recode_w7` from p256-x86_64.c (lines 128-137), same shape with
window width 7: `s = ~((in >> 7) - 1); d = (1 << 8) - in - 1; ...`. -/
def booth_recode_w7 (input : Nat) : Nat :=
  let s : Nat := u32Mask - ((input >>> 7) + u32Mask) % 2 ^ 32
  let d : Nat := (2 ^ 32 + 2 ^ 8 - 1 - input % 2 ^ 32) % 2 ^ 32
  let d : Nat := (d &&& s) ||| (input &&& (u32Mask - s))
  let d : Nat := (d >>> 1) + (d &&& 1)
  (d <<< 1) + (s &&& 1)

/-- The sign bit of a `(w+1)`-bit Booth input: the top bit of `v`. -/
def boothSign (w v : Nat) : Nat := v >>> w

/-- The magnitude the specification prescribes: complement `v` against
`2^(w+1)` when the top bit is set, then halve with rounding. -/
def boothSpecMag (w v : Nat) : Nat :=
  let d := if boothSign w v = 1 then 2 ^ (w + 1) - v - 1 else v
  (d >>> 1) + (d &&& 1)

/-- The signed digit denoted by a recoded value `b`: `(-1)^(b&1) * (b>>1)`. -/
def signedDigit (b : Nat) : ℤ :=
  (if b % 2 = 1 then (-1 : ℤ) else 1) * (b >>> 1 : Nat)

/-- Closed form of the `w`-window signed Booth digit of input `v`:
`⌈v/2⌉ - 2^w·(top bit of v)`. -/
def sdig (w v : Nat) : ℤ := (v / 2 : Nat) + (v % 2 : Nat) - 2 ^ w * (v >>> w : Nat)

/-- The `(w+1)`-bit window of scalar `a` at bit position `w*m`: two adjacent
`w`-bit windows overlap in one bit, the low bit being the carry-in (bit
`w*m - 1` of `a`), which is uniformly expressed by windowing `2*a`. -/
def wval (w a m : Nat) : Nat := ((2 * a) >>> (w * m)) % 2 ^ (w + 1)

/-- Sum of the first `j` signed Booth digits of `a`, each weighted by
`2^(w*m)`. -/
def sdSum (w a j : Nat) : ℤ :=
  ∑ m ∈ Finset.range j, sdig w (wval w a m) * 2 ^ (w * m)

/-- The 52 overlapping width-5 Booth windows of a 256-bit scalar, recoded by
`booth_recode_w5`, reconstruct the scalar. -/
def boothSum5 (a : Nat) : ℤ :=
  ∑ m ∈ Finset.range 52, signedDigit (booth_recode_w5 (wval 5 a m)) * 2 ^ (5 * m)

/-- The 37 overlapping width-7 Booth windows of a 256-bit scalar, recoded by
`booth_recode_w7`, reconstruct the scalar. -/
def boothSum7 (a : Nat) : ℤ :=
  ∑ m ∈ Finset.range 37, signedDigit (booth_recode_w7 (wval 7 a m)) * 2 ^ (7 * m)

/-! ## Limb-level model: `copy_conditional` and conditional negation -/
/-- A 256-bit value as four 64-bit limbs, little-endian (`BN_ULONG[P256_LIMBS]`
with `P256_LIMBS = 4` on 64-bit builds). -/
structure FourLimbs where
  l0 : Nat
  l1 : Nat
  l2 : Nat
  l3 : Nat
deriving DecidableEq

/-- `copy_conditional` from p256-x86_64.c (lines 139-154): `mask1 = -move`,
`mask2 = ~mask1`, `dst[i] = (src[i] & mask1) ^ (dst[i] & mask2)` over the four
64-bit limbs (the `P256_LIMBS == 8` branch is dead on 64-bit builds). -/
def copy_conditional (dst src : FourLimbs) (move : Nat) : FourLimbs :=
  let mask1 : Nat := (2 ^ 64 - move % 2 ^ 64) % 2 ^ 64
  let mask2 : Nat := (2 ^ 64 - 1) - mask1
  ⟨(src.l0 &&& mask1) ^^^ (dst.l0 &&& mask2),
   (src.l1 &&& mask1) ^^^ (dst.l1 &&& mask2),
   (src.l2 &&& mask1) ^^^ (dst.l2 &&& mask2),
   (src.l3 &&& mask1) ^^^ (dst.l3 &&& mask2)⟩

/-- The integer a little-endian limb vector stands for. -/
def limbsVal (x : FourLimbs) : Nat :=
  x.l0 + 2 ^ 64 * x.l1 + 2 ^ 128 * x.l2 + 2 ^ 192 * x.l3

/-- The canonical limb vector of a value below `2^256`. -/
def limbsOfNat (x : Nat) : FourLimbs :=
  ⟨x % 2 ^ 64, (x >>> 64) % 2 ^ 64, (x >>> 128) % 2 ^ 64, (x >>> 192) % 2 ^ 64⟩

/-- The P-256 prime `2^256 - 2^224 + 2^192 + 2^96 - 1` (the file's comment:
`ffffffff 00000001 00000000 00000000 00000000 ffffffff ffffffff ffffffff`). -/
def pP256 : Nat := 2 ^ 256 - 2 ^ 224 + 2 ^ 192 + 2 ^ 96 - 1

/-- Modelled from the spec: `ecp_nistz256_neg` is assembly (declared at line 88
of p256-x86_64.c with contract `res = -a mod P`); it stores the canonical limbs
of the field negation of its input. -/
def ecp_nistz256_neg (a : FourLimbs) : FourLimbs :=
  limbsOfNat ((pP256 - limbsVal a % pP256) % pP256)

/-! ## Primality of the P-256 prime: verified modular exponentiation and
Lucas certificates -/
/-- Fuelled binary modular exponentiation; fuel bounds the bit length of the
exponent. Used only to certify primality of the field prime. -/
def powModAux : Nat → Nat → Nat → Nat → Nat
  | 0, m, _, _ => 1 % m
  | fuel + 1, m, a, e =>
    if e = 0 then 1 % m
    else
      let r := powModAux fuel m (a * a % m) (e / 2)
      if e % 2 = 1 then r * (a % m) % m else r

/-- Modular exponentiation `a ^ e % m` for exponents below `2^257`. -/
def powModN (m a e : Nat) : Nat := powModAux 257 m a e

abbrev Fp : Type := ZMod pP256

def RInvN : Nat := 115792089183396302114378112356516095823261736990586219612555396166510339686400

def RInv : Fp := (RInvN : Nat)

def RMont : Fp := ((2 ^ 256 : Nat) : Fp)

def mulMont (a b : Fp) : Fp := a * b * RInv

def sqrMont (a : Fp) : Fp := a * a * RInv

def fromMont (a : Fp) : Fp := a * RInv

def sqIter {α : Type} (sq : α → α) : Nat → α → α
  | 0, x => x
  | n + 1, x => sqIter sq n (sq x)

def invTail {α : Type} (sq : α → α) (mul : α → α → α) (a p2 p4 p8 p16 p32 : α) : α :=
  let r := mul (sqIter sq 32 p32) a
  let r := mul (sqIter sq 128 r) p32
  let r := mul (sqIter sq 32 r) p32
  let r := mul (sqIter sq 16 r) p16
  let r := mul (sqIter sq 8 r) p8
  let r := mul (sqIter sq 4 r) p4
  let r := mul (sqIter sq 2 r) p2
  mul (sqIter sq 2 r) a

def invChain {α : Type} (sq : α → α) (mul : α → α → α) (a : α) : α :=
  let p2 := mul (sq a) a
  let p4 := mul (sqIter sq 2 p2) p2
  let p8 := mul (sqIter sq 4 p4) p4
  let p16 := mul (sqIter sq 8 p8) p8
  let p32 := mul (sqIter sq 16 p16) p16
  invTail sq mul a p2 p4 p8 p16 p32

def ecp_nistz256_mod_inverse (a : Fp) : Fp := invChain sqrMont mulMont a

/-- Tags naming the operands of the inversion chain tail: the input `a` and
the intermediate powers built first. -/
inductive InvArg where
  | inA
  | argP2
  | argP4
  | argP8
  | argP16
  | argP32
deriving DecidableEq

/-- The tail of the inversion chain run in the free interpretation that
records, in order, the seed and then every multiplication's second operand
(squarings keep the list unchanged): position 0 is the seed of the
accumulator, the rest is the multiplicand order. -/
def invTailTrace : List InvArg :=
  invTail (fun l : List InvArg => l) (fun x y : List InvArg => x ++ y)
    [InvArg.inA] [InvArg.argP2] [InvArg.argP4] [InvArg.argP8] [InvArg.argP16] [InvArg.argP32]

/-- Error kinds surfaced by the two entry points (`OPENSSL_PUT_ERROR` codes
`EC_R_POINT_AT_INFINITY`, `EC_R_COORDINATES_OUT_OF_RANGE`,
`ERR_R_MALLOC_FAILURE`, `EC_R_UNDEFINED_GENERATOR`). -/
inductive ECerr where
  | pointAtInfinity
  | coordinatesOutOfRange
  | mallocFailure
  | undefinedGenerator
deriving DecidableEq

/-- `ecp_nistz256_get_affine` (lines 637-678): fail when the input point is
the identity (`Z = 0`, the caller's convention for `EC_POINT_is_at_infinity`);
otherwise invert `Z` via the chain, square it, multiply with `X`, convert out
of the Montgomery domain; when `y` is requested, also build the cube and do
the same with `Y`. Coordinates are taken already range-checked into field
elements (`ecp_nistz256_bignum_to_field_elem`). -/
def ecp_nistz256_get_affine (X Y Z : Fp) (wantY : Bool) : Except ECerr (Fp × Option Fp) :=
  if Z = 0 then Except.error ECerr.pointAtInfinity
  else
    let z_inv3 := ecp_nistz256_mod_inverse Z
    let z_inv2 := sqrMont z_inv3
    let x_aff := mulMont z_inv2 X
    if wantY then
      let z_inv3b := mulMont z_inv3 z_inv2
      let y_aff := mulMont z_inv3b Y
      Except.ok (fromMont x_aff, some (fromMont y_aff))
    else
      Except.ok (fromMont x_aff, none)

/-! ## The scalar-multiplication engine: serialization, windowed general
path, generator fast path, and the combined entry point -/
/-- Byte `j` of the 33-byte little-endian serialization `p_str` of a scalar
(lines 340-358 resp. 510-530): the loops write the scalar's words byte by
byte, little-endian, and zero-fill the remainder, so byte `j` of a value `a`
is `(a >> 8j) mod 256`. -/
def p_str (a j : Nat) : Nat := (a >>> (8 * j)) % 256

/-- `kMask = (1 << (5 + 1)) - 1` of `ecp_nistz256_windowed_mul` (line 305). -/
def kMask5 : Nat := (1 <<< 6) - 1

/-- `kMask = (1 << (7 + 1)) - 1` of `ecp_nistz256_points_mul` (line 468). -/
def kMask7 : Nat := (1 <<< 8) - 1

/-- The first (topmost) w=5 window read (lines 390-392): a single-byte read
at `index = 255`, `wvalue = p_str[(index-1)/8] >> ((index-1)%8) & kMask`. -/
def wvalFirst (a : Nat) : Nat := (p_str a ((255 - 1) / 8) >>> ((255 - 1) % 8)) &&& kMask5

/-- The two-byte w=5 window read of the main loop (lines 398-401):
`off = (index-1)/8; wvalue = (p_str[off] | p_str[off+1] << 8) >> ((index-1)%8) & kMask`. -/
def wvalMid5 (a index : Nat) : Nat :=
  ((p_str a ((index - 1) / 8) ||| (p_str a ((index - 1) / 8 + 1) <<< 8)) >>> ((index - 1) % 8))
    &&& kMask5

/-- The final w=5 window read (lines 424-425): `(p_str[0] << 1) & kMask`. -/
def wvalLast5 (a : Nat) : Nat := (p_str a 0 <<< 1) &&& kMask5

/-- The first w=7 window read of the generator path (line 533). -/
def wvalFirst7 (a : Nat) : Nat := (p_str a 0 <<< 1) &&& kMask7

/-- The two-byte w=7 window read of the generator path loop (lines 548-550). -/
def wvalMid7 (a index : Nat) : Nat :=
  ((p_str a ((index - 1) / 8) ||| (p_str a ((index - 1) / 8 + 1) <<< 8)) >>> ((index - 1) % 8))
    &&& kMask7

section PointEngine

variable {G : Type} [AddCommGroup G]

/-- Modelled from the spec: `ecp_nistz256_point_double` is assembly (declared
line 198), contracted to double the represented group element; points are
modelled as the group elements they represent. -/
def pointDouble (x : G) : G := x + x

/-- Modelled from the spec: `ecp_nistz256_point_add` is assembly (declared
line 199), contracted to add the represented group elements
(projective+projective addition, the infinity encoding `Z = 0` included). -/
def pointAdd (x y : G) : G := x + y

/-- The ephemeral 16-entry table a windowed-mul row is filled with
(lines 364-385), built by exactly the source's doubling/addition chain;
entry `i` (0-based) holds the multiple `(i+1)·P` once the point contracts
hold. -/
def ecTableList (P : G) : List G :=
  let r1 := P
  let r2 := pointDouble r1
  let r3 := pointAdd r2 r1
  let r4 := pointDouble r2
  let r6 := pointDouble r3
  let r8 := pointDouble r4
  let r12 := pointDouble r6
  let r5 := pointAdd r4 r1
  let r7 := pointAdd r6 r1
  let r9 := pointAdd r8 r1
  let r13 := pointAdd r12 r1
  let r14 := pointDouble r7
  let r10 := pointDouble r5
  let r15 := pointAdd r14 r1
  let r11 := pointAdd r10 r1
  let r16 := pointAdd r15 r1
  [r1, r2, r3, r4, r5, r6, r7, r8, r9, r10, r11, r12, r13, r14, r15, r16]

/-- Modelled from the spec: `ecp_nistz256_select_w5` is assembly (declared
line 103); it mask-scans the 16 stored entries for the one tagged `idx`
(entries are stored with offset -1, line 360-362), producing the all-zero
point - the `Z = 0` infinity encoding, i.e. the group identity - when
`idx = 0` matches nothing. -/
def select_w5 (P : G) (idx : Nat) : G :=
  if idx = 0 then 0 else (ecTableList P).getD (idx - 1) 0

/-- A loop-body selection (lines 403-408 resp. 427-432): select by the recoded
magnitude `b >> 1`, negate `Y` into a scratch (`ecp_nistz256_neg`), and
`copy_conditional` it back under the sign bit `b & 1`; negating the
Y-coordinate negates the represented group element. -/
def signedSelect5 (P : G) (b : Nat) : G :=
  let h := select_w5 P (b >>> 1)
  if b % 2 = 1 then -h else h

/-- Weighted sum over a scalar/point list: `Σ f(aᵢ) · Pᵢ`. -/
def ptsSum (ps : List (Nat × G)) (f : Nat → ℤ) : G :=
  (ps.map (fun pr => f pr.1 • pr.2)).sum

/-- `k` successive point doublings (the five `ecp_nistz256_point_double`
calls between windows, lines 415-419). -/
def doubleN : Nat → G → G
  | 0, x => x
  | k + 1, x => doubleN k (pointDouble x)

/-- One window pass of the main loop body (lines 397-411): for every point,
extract its window at `index`, recode, select, conditionally negate, and
accumulate into `r` by projective addition. -/
def addsAt (ps : List (Nat × G)) (index : Nat) (r : G) : G :=
  ps.foldl (fun acc pr =>
    pointAdd acc (signedSelect5 pr.2 (booth_recode_w5 (wvalMid5 pr.1 index)))) r

/-- The remaining windows of `ecp_nistz256_windowed_mul` (lines 396-435),
counted down: at fuel `j+1` process window `index = 5(j+1)` then double five
times; at fuel `0` the final window (lines 423-435). -/
def wmLoop (ps : List (Nat × G)) : Nat → G → G
  | 0, r => ps.foldl (fun acc pr =>
      pointAdd acc (signedSelect5 pr.2 (booth_recode_w5 (wvalLast5 pr.1)))) r
  | j + 1, r => wmLoop ps j (doubleN 5 (addsAt ps (5 * (j + 1)) r))

/-- `ecp_nistz256_windowed_mul` (lines 300-441) on already-reduced scalars:
seed `r` from the very first point's top window by plain selection (line 394,
no sign application - the top window of a reduced scalar is never negative),
add the remaining points' top windows, then run the ladder down. `num ≥ 1`
always holds at the call site (line 606). -/
def windowedMulN (first : Nat × G) (rest : List (Nat × G)) : G :=
  wmLoop (first :: rest) 50
    (doubleN 5 (addsAt rest 255 (select_w5 first.2 (booth_recode_w5 (wvalFirst first.1) >>> 1))))

/-- What a `P256_POINT` triple held by the engine stands for: `ok x` - a
Jacobian triple representing the group element `x` (`Z = 0` encoding the
identity); `junk` - the triple `(0, 0, ONE)` produced by the fast-path
seeding when the first window's magnitude is zero: its `Z` is not 0, yet its
affine reading `(0,0)` is not on the curve, so it represents no group
element. -/
inductive JRep (G : Type) where
  | ok : G → JRep G
  | junk : JRep G
deriving DecidableEq

/-- Modelled from the spec: one signed selection from the precomputed
generator table (`p256-x86_64-table.h`, included at line 114 but not part of
the C source, read by the assembly `ecp_nistz256_select_w7`), followed by the
conditional negation (lines 555-558). Row `k` serves the recoded magnitude
`d ≤ 64` with the affine point `d·2^{7k}·G` - the table stores the multiples
of `2^{7k}·G` that window `k`'s digits need, per the spec's GeneratorTable
and select-by-magnitude contract - and `none` is the all-zero `(0,0)` affine
encoding of the identity produced when `d = 0` matches no entry. -/
def genAffine (g : G) (row b : Nat) : Option G :=
  if b >>> 1 = 0 then none
  else some (if b % 2 = 1 then -((((b >>> 1) * 2 ^ (7 * row) : Nat) : ℤ) • g)
             else (((b >>> 1) * 2 ^ (7 * row) : Nat) : ℤ) • g)

/-- Modelled from the spec: `ecp_nistz256_point_add_affine` is assembly
(declared line 201). Contract: if the affine operand is the `(0,0)` identity
encoding the result is the projective operand unchanged; otherwise the sum of
the represented elements. A junk operand (a triple representing no group
element) yields junk - the formulas evaluated on a non-curve triple produce a
non-curve triple (this case is exercised by no confirmed theorem, only by the
zero-scalar counterexamples, whose adds all have an identity-encoded affine
operand). -/
def ecp_nistz256_point_add_affine (p : JRep G) (t : Option G) : JRep G :=
  match p, t with
  | p, none => p
  | JRep.ok x, some q => JRep.ok (x + q)
  | JRep.junk, some _ => JRep.junk

/-- The generator-path seeding (lines 540-545): select row 0 by magnitude,
conditionally negate Y, then unconditionally `memcpy(p.p.Z, ONE, ...)`.
When the magnitude is 0 the selected affine point is the `(0,0)` identity
encoding, and overwriting `Z` with `ONE` manufactures the triple `(0,0,1)` -
`Z ≠ 0`, yet representing no group element: `junk`. Otherwise the result
represents the selected signed multiple. -/
def seedFast (g : G) (b : Nat) : JRep G :=
  match genAffine g 0 b with
  | none => JRep.junk
  | some q => JRep.ok q

/-- The generator fast path of `ecp_nistz256_points_mul` (lines 510-561) on
the already-reduced scalar `a`: seed from the first 7-bit window, then 36
select/negate/add-affine rows, no doublings. -/
def fastPath (g : G) (a : Nat) : JRep G :=
  (List.range 36).foldl
    (fun p i => ecp_nistz256_point_add_affine p
      (genAffine g (i + 1) (booth_recode_w7 (wvalMid7 a (7 * (i + 1))))))
    (seedFast g (booth_recode_w7 (wvalFirst7 a)))

/-- Modelled from the spec: the P-256 group order, the `&group->order` field
of the external `EC_GROUP` object the reductions use (lines 330, 503). -/
def nP256 : Nat :=
  115792089210356248762697446949407573529996955224135760342422259061068512044369

/-- The scalar reduction both paths apply first (lines 324-337, 497-508):
if the scalar has more than 256 bits or is negative, replace it by its
nonnegative residue mod the group order (`BN_nnmod`). -/
def reduceScalar (k : ℤ) : Nat :=
  if 2 ^ 256 ≤ k.natAbs ∨ k < 0 then (k % (nP256 : ℤ)).toNat else k.toNat

/-- `ecp_nistz256_windowed_mul` with its per-scalar reduction (lines
324-337). -/
def ecp_nistz256_windowed_mul (first : ℤ × G) (rest : List (ℤ × G)) : G :=
  windowedMulN (reduceScalar first.1, first.2)
    (rest.map (fun pr => (reduceScalar pr.1, pr.2)))

/-- The windowed multiplication over a list; the `[]` case never arises at
the call site (guarded by `if (num)`, line 606). -/
def windowedList (l : List (ℤ × G)) : G :=
  match l with
  | [] => 0
  | first :: rest => ecp_nistz256_windowed_mul first rest

/-- The final merge `ecp_nistz256_point_add(&p.p, &p.p, out)` (line 615),
at representation level: adding a real windowed result to the fast-path
accumulator; junk stays junk. -/
def point_add_jac (p : JRep G) (out : G) : JRep G :=
  match p with
  | JRep.ok x => JRep.ok (x + out)
  | JRep.junk => JRep.junk

/-- `ecp_nistz256_points_mul` (lines 464-635). `genStandard` is the
`ecp_nistz256_is_affine_G` test on the group's generator (lines 456-461);
`scalar = none` is a NULL base scalar. Absent scalar with no points:
`EC_POINT_set_to_infinity` (lines 476-478). Standard generator: the fast
path handles the base scalar and the windowed path the auxiliaries, merged
by one final addition (lines 606-617). Otherwise the generator is folded
into the point list (appended last, lines 596-599) after the explicit
`0xffffff < num` bound check (lines 578-581), which reports
`ERR_R_MALLOC_FAILURE` before any point arithmetic. Points carry in-range
coordinates (the `ecp_nistz256_bignum_to_field_elem` checks pass) and other
allocation failures are not modelled. -/
def ecp_nistz256_points_mul (g : G) (genStandard : Bool) (scalar : Option ℤ)
    (aux : List (ℤ × G)) : Except ECerr (JRep G) :=
  match scalar, aux with
  | none, [] => Except.ok (JRep.ok 0)
  | none, first :: rest => Except.ok (JRep.ok (ecp_nistz256_windowed_mul first rest))
  | some k, aux =>
    if genStandard then
      match aux with
      | [] => Except.ok (fastPath g (reduceScalar k))
      | first :: rest =>
        Except.ok (point_add_jac (fastPath g (reduceScalar k))
          (ecp_nistz256_windowed_mul first rest))
    else
      if 0xffffff < aux.length then Except.error ECerr.mallocFailure
      else Except.ok (JRep.ok (windowedList (aux ++ [(k, g)])))

end PointEngine

/-! ### Theorems -/

theorem booth_recode_w5_eq (v : Nat) (hv : v < 64) :
    booth_recode_w5 v = 2 * boothSpecMag 5 v + boothSign 5 v := by
  revert v hv; decide

theorem booth_recode_w7_eq (v : Nat) (hv : v < 256) :
    booth_recode_w7 v = 2 * boothSpecMag 7 v + boothSign 7 v := by
  revert v hv; decide

theorem booth_w5_digit (v : Nat) (hv : v < 64) :
    signedDigit (booth_recode_w5 v) = sdig 5 v := by
  revert v hv; decide

theorem booth_w7_digit (v : Nat) (hv : v < 256) :
    signedDigit (booth_recode_w7 v) = sdig 7 v := by
  revert v hv; decide

theorem shift_two_mul (a k : Nat) : (2 * a) >>> (k + 1) = a >>> k := by
  simp only [Nat.shiftRight_eq_div_pow, pow_succ']
  exact Nat.mul_div_mul_left a (2 ^ k) (by norm_num)

theorem wval_div_two (w a j : Nat) :
    wval w a j / 2 = (a >>> (w * j)) % 2 ^ w := by
  unfold wval
  rw [show (2 : Nat) ^ (w + 1) = 2 * 2 ^ w by rw [pow_succ, mul_comm]]
  rw [Nat.mod_mul_right_div_self]
  congr 1
  rw [Nat.shiftRight_eq_div_pow, Nat.shiftRight_eq_div_pow, Nat.div_div_eq_div_mul,
    mul_comm (2 ^ (w * j)) 2, ← pow_succ']
  have h := shift_two_mul a (w * j)
  rw [Nat.shiftRight_eq_div_pow, Nat.shiftRight_eq_div_pow] at h
  exact h

theorem wval_mod_two (w a j : Nat) :
    wval w a j % 2 = ((2 * a) >>> (w * j)) % 2 := by
  unfold wval
  exact Nat.mod_mod_of_dvd _ (dvd_pow_self 2 (Nat.succ_ne_zero w))

theorem wval_top (w a j : Nat) :
    wval w a j >>> w = ((2 * a) >>> (w * (j + 1))) % 2 := by
  unfold wval
  rw [Nat.shiftRight_eq_div_pow, show (2 : Nat) ^ (w + 1) = 2 ^ w * 2 by rw [pow_succ]]
  rw [Nat.mod_mul_right_div_self, ← Nat.shiftRight_eq_div_pow, ← Nat.shiftRight_add,
    show w * j + w = w * (j + 1) by ring]

theorem mod_pow_split (a w j : Nat) :
    a % 2 ^ (w * (j + 1)) = a % 2 ^ (w * j) + 2 ^ (w * j) * ((a >>> (w * j)) % 2 ^ w) := by
  rw [show w * (j + 1) = w * j + w by ring, pow_add, Nat.mod_mul, Nat.shiftRight_eq_div_pow]

/-- Telescoping invariant of the Booth digit expansion: the partial digit sum
recovers the low bits of `a` minus a pending borrow equal to the carry bit
into the next window. -/
theorem sdSum_invariant (w a : Nat) (j : Nat) :
    sdSum w a j =
      (a % 2 ^ (w * j) : Nat) - 2 ^ (w * j) * (((2 * a) >>> (w * j)) % 2 : Nat) := by
  induction j with
  | zero => simp [sdSum, Nat.mul_mod_right]
  | succ j ih =>
    rw [sdSum, Finset.sum_range_succ, ← sdSum, ih]
    rw [sdig, wval_div_two w a j, wval_mod_two w a j, wval_top w a j, mod_pow_split a w j]
    push_cast
    ring_nf

/-- Once the windows cover all 256 bits (plus the trailing carry), the signed
digit expansion sums back to the scalar exactly. -/
theorem sdSum_self (w M a : Nat) (ha : a < 2 ^ 256) (h : 257 ≤ w * M) :
    sdSum w a M = a := by
  rw [sdSum_invariant]
  have h1 : a % 2 ^ (w * M) = a :=
    Nat.mod_eq_of_lt (lt_of_lt_of_le ha (Nat.pow_le_pow_right (by norm_num) (by omega)))
  have h2 : (2 * a) >>> (w * M) = 0 := by
    rw [Nat.shiftRight_eq_div_pow]
    apply Nat.div_eq_of_lt
    have hle : (2 : Nat) ^ 257 ≤ 2 ^ (w * M) := Nat.pow_le_pow_right (by omega) h
    have heq : (2 : Nat) ^ 257 = 2 * 2 ^ 256 := by rw [pow_succ']
    omega
  rw [h1, h2]
  simp

theorem wval_lt (w a m : Nat) : wval w a m < 2 ^ (w + 1) :=
  Nat.mod_lt _ (Nat.pos_pow_of_pos _ (by norm_num))

theorem boothSum5_eq (a : Nat) (ha : a < 2 ^ 256) : boothSum5 a = a := by
  have h : boothSum5 a = sdSum 5 a 52 := by
    apply Finset.sum_congr rfl
    intro m _
    rw [booth_w5_digit _ (wval_lt 5 a m)]
  rw [h, sdSum_self 5 52 a ha (by norm_num)]

theorem boothSum7_eq (a : Nat) (ha : a < 2 ^ 256) : boothSum7 a = a := by
  have h : boothSum7 a = sdSum 7 a 37 := by
    apply Finset.sum_congr rfl
    intro m _
    rw [booth_w7_digit _ (wval_lt 7 a m)]
  rw [h, sdSum_self 7 37 a ha (by norm_num)]

theorem booth_w5_mag_le (v : Nat) (hv : v < 64) :
    booth_recode_w5 v >>> 1 ≤ 16 := by
  revert v hv; decide

theorem booth_w7_mag_le (v : Nat) (hv : v < 256) :
    booth_recode_w7 v >>> 1 ≤ 64 := by
  revert v hv; decide

theorem limbsOfNat_lt (x : Nat) :
    (limbsOfNat x).l0 < 2 ^ 64 ∧ (limbsOfNat x).l1 < 2 ^ 64 ∧
    (limbsOfNat x).l2 < 2 ^ 64 ∧ (limbsOfNat x).l3 < 2 ^ 64 := by
  refine ⟨?_, ?_, ?_, ?_⟩ <;> exact Nat.mod_lt _ (by norm_num)

theorem copy_conditional_zero (dst src : FourLimbs)
    (h0 : dst.l0 < 2 ^ 64) (h1 : dst.l1 < 2 ^ 64) (h2 : dst.l2 < 2 ^ 64)
    (h3 : dst.l3 < 2 ^ 64) :
    copy_conditional dst src 0 = dst := by
  have hm : ((2 ^ 64 - 0 % 2 ^ 64) % 2 ^ 64 : Nat) = 0 := by norm_num
  unfold copy_conditional
  simp only [hm, Nat.and_zero, Nat.zero_xor, Nat.xor_zero, Nat.zero_and, Nat.sub_zero]
  have e : ∀ y : Nat, y < 2 ^ 64 → y &&& (2 ^ 64 - 1) = y := by
    intro y hy
    rw [Nat.and_pow_two_sub_one_eq_mod, Nat.mod_eq_of_lt hy]
  rw [e _ h0, e _ h1, e _ h2, e _ h3]

theorem copy_conditional_one (dst src : FourLimbs)
    (h0 : src.l0 < 2 ^ 64) (h1 : src.l1 < 2 ^ 64) (h2 : src.l2 < 2 ^ 64)
    (h3 : src.l3 < 2 ^ 64) :
    copy_conditional dst src 1 = src := by
  have hm : ((2 ^ 64 - 1 % 2 ^ 64) % 2 ^ 64 : Nat) = 2 ^ 64 - 1 := by norm_num
  unfold copy_conditional
  simp only [hm, Nat.sub_self, Nat.and_zero, Nat.xor_zero]
  have e : ∀ y : Nat, y < 2 ^ 64 → y &&& (2 ^ 64 - 1) = y := by
    intro y hy
    rw [Nat.and_pow_two_sub_one_eq_mod, Nat.mod_eq_of_lt hy]
  rw [e _ h0, e _ h1, e _ h2, e _ h3]

theorem pP256_eq :
    pP256 = 115792089210356248762697446949407573530086143415290314195533631308867097853951 := by
  norm_num [pP256]

theorem limbsVal_limbsOfNat (x : Nat) (hx : x < 2 ^ 256) :
    limbsVal (limbsOfNat x) = x := by
  unfold limbsVal limbsOfNat
  simp only [Nat.shiftRight_eq_div_pow]
  omega

theorem neg_val_add (y : FourLimbs) :
    (limbsVal (ecp_nistz256_neg y) + limbsVal y) % pP256 = 0 := by
  have hp : 0 < pP256 := by rw [pP256_eq]; norm_num
  have hlt : pP256 < 2 ^ 256 := by rw [pP256_eq]; norm_num
  have hval : limbsVal (ecp_nistz256_neg y) = (pP256 - limbsVal y % pP256) % pP256 := by
    unfold ecp_nistz256_neg
    exact limbsVal_limbsOfNat _ (lt_of_lt_of_le (Nat.mod_lt _ hp) (le_of_lt hlt))
  rw [hval]
  generalize limbsVal y = v
  rcases Nat.eq_zero_or_pos (v % pP256) with h0 | hpos
  · rw [h0, Nat.sub_zero, Nat.mod_self, Nat.zero_add]
    exact h0
  · have hlt2 : pP256 - v % pP256 < pP256 := by
      have := Nat.mod_lt v hp
      omega
    rw [Nat.mod_eq_of_lt hlt2]
    obtain ⟨q, hq⟩ : ∃ q, pP256 - v % pP256 + v = pP256 * q := by
      refine ⟨v / pP256 + 1, ?_⟩
      have hdm := Nat.div_add_mod v pP256
      have hl := Nat.mod_lt v hp
      rw [Nat.mul_add, Nat.mul_one]
      generalize pP256 * (v / pP256) = t at hdm ⊢
      omega
    rw [hq, Nat.mul_mod_right]

/-! ## Claim theorems: Booth recoding and conditional negation -/
/-- C2: each Booth recoder packs a magnitude of at most `2^(w-1)` above the
lowest bit and the sign (the top bit of `v`) in the lowest bit, the magnitude
being the rounded half of `v` or of its complement against `2^(w+1)`; and the
signed digits of the consecutive overlapping windows of any 256-bit scalar sum
back to that scalar (hence reproduce it modulo `2^256`). -/
theorem booth_recoding_packs_and_reconstructs :
    (∀ v : Nat, v < 64 →
      booth_recode_w5 v = 2 * boothSpecMag 5 v + boothSign 5 v ∧ boothSpecMag 5 v ≤ 16) ∧
    (∀ v : Nat, v < 256 →
      booth_recode_w7 v = 2 * boothSpecMag 7 v + boothSign 7 v ∧ boothSpecMag 7 v ≤ 64) ∧
    (∀ a : Nat, a < 2 ^ 256 → boothSum5 a = a ∧ boothSum7 a = a) := by
  refine ⟨fun v hv => ⟨booth_recode_w5_eq v hv, ?_⟩,
          fun v hv => ⟨booth_recode_w7_eq v hv, ?_⟩,
          fun a ha => ⟨boothSum5_eq a ha, boothSum7_eq a ha⟩⟩
  · revert v hv; decide
  · revert v hv; decide

/-- Witness for C2 at the concrete window value 37 and scalar 3. -/
theorem booth_recoding_packs_and_reconstructs_witness :
    (booth_recode_w5 37 = 2 * boothSpecMag 5 37 + boothSign 5 37 ∧ boothSpecMag 5 37 ≤ 16) ∧
    boothSum5 3 = 3 :=
  ⟨booth_recoding_packs_and_reconstructs.1 37 (by decide),
   (booth_recoding_packs_and_reconstructs.2.2 3 (by norm_num)).1⟩

/-- C6 counterexample: the window value 4 recodes to magnitude 2 with sign 0,
a nonzero even magnitude, so it is false that every nonzero Booth magnitude
(= index asked of the table lookup) is odd. -/
theorem booth_nonzero_magnitude_odd_refuted :
    booth_recode_w5 4 = 4 ∧ booth_recode_w5 4 >>> 1 = 2 ∧
    ¬ (∀ v : Nat, v < 64 →
        booth_recode_w5 v >>> 1 ≠ 0 → (booth_recode_w5 v >>> 1) % 2 = 1) := by
  refine ⟨by decide, by decide, fun h => ?_⟩
  exact absurd (h 4 (by decide) (by decide)) (by decide)

/-- C6 amended: Booth magnitudes are bounded by `2^(w-1)`, so table selection
only ever asks for an index among the 16 stored multiples (w = 5 ephemeral
table) resp. the 64 stored multiples per row (w = 7 generator table). -/
theorem booth_magnitude_within_table_range :
    (∀ v : Nat, v < 64 → booth_recode_w5 v >>> 1 ≤ 16) ∧
    (∀ v : Nat, v < 256 → booth_recode_w7 v >>> 1 ≤ 64) :=
  ⟨booth_w5_mag_le, booth_w7_mag_le⟩

/-- Witness for the amended C6 at window values 31 and 255. -/
theorem booth_magnitude_within_table_range_witness :
    booth_recode_w5 31 >>> 1 ≤ 16 ∧ booth_recode_w7 255 >>> 1 ≤ 64 :=
  ⟨booth_magnitude_within_table_range.1 31 (by decide),
   booth_magnitude_within_table_range.2 255 (by decide)⟩

/-- C7: negating `Y` with `ecp_nistz256_neg` and then running
`copy_conditional` on the sign flag (a single bit, as passed by both callers:
`wvalue & 1`) overwrites `Y` with the field negation exactly when the flag is
1 and leaves it unchanged exactly when the flag is 0, purely by mask
arithmetic; and the value written in the flag = 1 case is the mod-p negation
of the value of `Y`. -/
theorem conditional_negation_masking (y : FourLimbs) (flag : Nat)
    (h0 : y.l0 < 2 ^ 64) (h1 : y.l1 < 2 ^ 64) (h2 : y.l2 < 2 ^ 64) (h3 : y.l3 < 2 ^ 64)
    (hflag : flag < 2) :
    copy_conditional y (ecp_nistz256_neg y) flag
      = (if flag = 0 then y else ecp_nistz256_neg y) ∧
    (limbsVal (ecp_nistz256_neg y) + limbsVal y) % pP256 = 0 := by
  refine ⟨?_, neg_val_add y⟩
  interval_cases flag
  · simpa using copy_conditional_zero y (ecp_nistz256_neg y) h0 h1 h2 h3
  · have hb := limbsOfNat_lt ((pP256 - limbsVal y % pP256) % pP256)
    simpa using copy_conditional_one y (ecp_nistz256_neg y) hb.1 hb.2.1 hb.2.2.1 hb.2.2.2

/-- Witness for C7 at a concrete limb vector with flag 1. -/
theorem conditional_negation_masking_witness :
    copy_conditional ⟨1, 2, 3, 4⟩ (ecp_nistz256_neg ⟨1, 2, 3, 4⟩) 1
      = (if (1 : Nat) = 0 then (⟨1, 2, 3, 4⟩ : FourLimbs) else ecp_nistz256_neg ⟨1, 2, 3, 4⟩) ∧
    (limbsVal (ecp_nistz256_neg ⟨1, 2, 3, 4⟩) + limbsVal ⟨1, 2, 3, 4⟩) % pP256 = 0 :=
  conditional_negation_masking ⟨1, 2, 3, 4⟩ 1 (by norm_num) (by norm_num) (by norm_num)
    (by norm_num) (by norm_num)

theorem powModAux_spec (fuel : Nat) : ∀ m a e : Nat, 0 < m → e < 2 ^ fuel →
    powModAux fuel m a e = a ^ e % m := by
  induction fuel with
  | zero =>
    intro m a e hm he
    interval_cases e
    simp [powModAux]
  | succ fuel ih =>
    intro m a e hm he
    rw [powModAux]
    rcases Nat.eq_zero_or_pos e with rfl | hpos
    · simp
    · have hne : ¬ e = 0 := by omega
      simp only [hne, if_false]
      have hdiv : e / 2 < 2 ^ fuel := by
        rw [pow_succ] at he
        omega
      rw [ih m (a * a % m) (e / 2) hm hdiv]
      have hsplit : a ^ e = (a * a) ^ (e / 2) * a ^ (e % 2) := by
        rw [← pow_two, ← pow_mul, ← pow_add]
        congr 1
        omega
      rcases Nat.mod_two_eq_zero_or_one e with h2 | h2
      · have hno : ¬ (e % 2 = 1) := by omega
        rw [if_neg hno, ← Nat.pow_mod, hsplit, h2, pow_zero, mul_one]
      · rw [if_pos h2, ← Nat.pow_mod, ← Nat.mul_mod, hsplit, h2, pow_one]

theorem powModN_spec (m a e : Nat) (hm : 0 < m) (he : e < 2 ^ 257) :
    powModN m a e = a ^ e % m :=
  powModAux_spec 257 m a e hm he

theorem cast_pow_eq (n a e : Nat) (hn : 0 < n) (he : e < 2 ^ 257) :
    (a : ZMod n) ^ e = ((powModN n a e : Nat) : ZMod n) := by
  rw [powModN_spec n a e hn he, ZMod.natCast_mod, Nat.cast_pow]

theorem pow_eq_one_of (n a e : Nat) (hn : 0 < n) (he : e < 2 ^ 257)
    (h : powModN n a e = 1) : (a : ZMod n) ^ e = 1 := by
  rw [cast_pow_eq n a e hn he, h, Nat.cast_one]

theorem pow_ne_one_of (n a e r : Nat) (hn : 1 < n) (he : e < 2 ^ 257)
    (h : powModN n a e = r) (hr1 : r ≠ 1) (hrn : r < n) : (a : ZMod n) ^ e ≠ 1 := by
  haveI : Fact (1 < n) := ⟨hn⟩
  rw [cast_pow_eq n a e (by omega) he, h]
  intro hcon
  have hv := congrArg ZMod.val hcon
  rw [ZMod.val_cast_of_lt hrn, ZMod.val_one] at hv
  exact hr1 hv

theorem prime_dvd_pow_eq {q r k : Nat} (hq : q.Prime) (hr : r.Prime) (h : q ∣ r ^ k) :
    q = r :=
  (Nat.prime_dvd_prime_iff_eq hq hr).mp (hq.dvd_of_dvd_pow h)

theorem prime2 : Nat.Prime 2 := by norm_num

theorem prime3 : Nat.Prime 3 := by norm_num

theorem prime5 : Nat.Prime 5 := by norm_num

theorem prime7 : Nat.Prime 7 := by norm_num

theorem prime11 : Nat.Prime 11 := by norm_num

theorem prime17 : Nat.Prime 17 := by norm_num

theorem prime23 : Nat.Prime 23 := by norm_num

theorem prime53 : Nat.Prime 53 := by norm_num

theorem prime107 : Nat.Prime 107 := by norm_num

theorem prime173 : Nat.Prime 173 := by norm_num

theorem prime197 : Nat.Prime 197 := by norm_num

theorem prime257 : Nat.Prime 257 := by norm_num

theorem prime641 : Nat.Prime 641 := by norm_num

theorem prime1531 : Nat.Prime 1531 := by norm_num

theorem prime2411 : Nat.Prime 2411 := by norm_num

theorem prime3677 : Nat.Prime 3677 := by norm_num

theorem prime3769 : Nat.Prime 3769 := by norm_num

theorem prime18169 : Nat.Prime 18169 := by norm_num

theorem prime65537 : Nat.Prime 65537 := by norm_num

theorem prime78283 : Nat.Prime 78283 := by norm_num

theorem prime490463 : Nat.Prime 490463 := by norm_num

theorem prime704251 : Nat.Prime 704251 := by norm_num

theorem prime6700417 : Nat.Prime 6700417 := by norm_num

theorem prime204061199 : Nat.Prime 204061199 := by
  have hfac : 204061199 - 1 = 2 * (11 * (23 * (107 * 3769))) := by norm_num
  refine lucas_primality 204061199 ((11 : ℕ) : ZMod 204061199)
    (pow_eq_one_of 204061199 11 (204061199 - 1) (by norm_num) (by norm_num) (by decide)) ?_
  intro q hq hdvd
  rw [hfac] at hdvd
  rcases (Nat.Prime.dvd_mul hq).mp hdvd with h | hdvd
  · have hqe : q = 2 := (Nat.prime_dvd_prime_iff_eq hq prime2).mp h
    rw [hqe, show (204061199 - 1) / 2 = 102030599 by norm_num]
    exact pow_ne_one_of 204061199 11 102030599 204061198 (by norm_num) (by norm_num) (by decide)
      (by norm_num) (by norm_num)
  rcases (Nat.Prime.dvd_mul hq).mp hdvd with h | hdvd
  · have hqe : q = 11 := (Nat.prime_dvd_prime_iff_eq hq prime11).mp h
    rw [hqe, show (204061199 - 1) / 11 = 18551018 by norm_num]
    exact pow_ne_one_of 204061199 11 18551018 155607935 (by norm_num) (by norm_num) (by decide)
      (by norm_num) (by norm_num)
  rcases (Nat.Prime.dvd_mul hq).mp hdvd with h | hdvd
  · have hqe : q = 23 := (Nat.prime_dvd_prime_iff_eq hq prime23).mp h
    rw [hqe, show (204061199 - 1) / 23 = 8872226 by norm_num]
    exact pow_ne_one_of 204061199 11 8872226 148327957 (by norm_num) (by norm_num) (by decide)
      (by norm_num) (by norm_num)
  rcases (Nat.Prime.dvd_mul hq).mp hdvd with h | hdvd
  · have hqe : q = 107 := (Nat.prime_dvd_prime_iff_eq hq prime107).mp h
    rw [hqe, show (204061199 - 1) / 107 = 1907114 by norm_num]
    exact pow_ne_one_of 204061199 11 1907114 176708376 (by norm_num) (by norm_num) (by decide)
      (by norm_num) (by norm_num)
  have hqe : q = 3769 := (Nat.prime_dvd_prime_iff_eq hq prime3769).mp hdvd
  rw [hqe, show (204061199 - 1) / 3769 = 54142 by norm_num]
  exact pow_ne_one_of 204061199 11 54142 72766951 (by norm_num) (by norm_num) (by decide)
    (by norm_num) (by norm_num)

theorem prime34282281433 : Nat.Prime 34282281433 := by
  have hfac : 34282281433 - 1 = 2 ^ 3 * (3 * (7 * 204061199)) := by norm_num
  refine lucas_primality 34282281433 ((17 : ℕ) : ZMod 34282281433)
    (pow_eq_one_of 34282281433 17 (34282281433 - 1) (by norm_num) (by norm_num) (by decide)) ?_
  intro q hq hdvd
  rw [hfac] at hdvd
  rcases (Nat.Prime.dvd_mul hq).mp hdvd with h | hdvd
  · have hqe : q = 2 := prime_dvd_pow_eq hq prime2 h
    rw [hqe, show (34282281433 - 1) / 2 = 17141140716 by norm_num]
    exact pow_ne_one_of 34282281433 17 17141140716 34282281432 (by norm_num) (by norm_num) (by decide)
      (by norm_num) (by norm_num)
  rcases (Nat.Prime.dvd_mul hq).mp hdvd with h | hdvd
  · have hqe : q = 3 := (Nat.prime_dvd_prime_iff_eq hq prime3).mp h
    rw [hqe, show (34282281433 - 1) / 3 = 11427427144 by norm_num]
    exact pow_ne_one_of 34282281433 17 11427427144 2081964342 (by norm_num) (by norm_num) (by decide)
      (by norm_num) (by norm_num)
  rcases (Nat.Prime.dvd_mul hq).mp hdvd with h | hdvd
  · have hqe : q = 7 := (Nat.prime_dvd_prime_iff_eq hq prime7).mp h
    rw [hqe, show (34282281433 - 1) / 7 = 4897468776 by norm_num]
    exact pow_ne_one_of 34282281433 17 4897468776 20356466339 (by norm_num) (by norm_num) (by decide)
      (by norm_num) (by norm_num)
  have hqe : q = 204061199 := (Nat.prime_dvd_prime_iff_eq hq prime204061199).mp hdvd
  rw [hqe, show (34282281433 - 1) / 204061199 = 168 by norm_num]
  exact pow_ne_one_of 34282281433 17 168 31815905754 (by norm_num) (by norm_num) (by decide)
    (by norm_num) (by norm_num)

theorem prime66417393611 : Nat.Prime 66417393611 := by
  have hfac : 66417393611 - 1 = 2 * (5 * (53 * (173 * (197 * 3677)))) := by norm_num
  refine lucas_primality 66417393611 ((6 : ℕ) : ZMod 66417393611)
    (pow_eq_one_of 66417393611 6 (66417393611 - 1) (by norm_num) (by norm_num) (by decide)) ?_
  intro q hq hdvd
  rw [hfac] at hdvd
  rcases (Nat.Prime.dvd_mul hq).mp hdvd with h | hdvd
  · have hqe : q = 2 := (Nat.prime_dvd_prime_iff_eq hq prime2).mp h
    rw [hqe, show (66417393611 - 1) / 2 = 33208696805 by norm_num]
    exact pow_ne_one_of 66417393611 6 33208696805 66417393610 (by norm_num) (by norm_num) (by decide)
      (by norm_num) (by norm_num)
  rcases (Nat.Prime.dvd_mul hq).mp hdvd with h | hdvd
  · have hqe : q = 5 := (Nat.prime_dvd_prime_iff_eq hq prime5).mp h
    rw [hqe, show (66417393611 - 1) / 5 = 13283478722 by norm_num]
    exact pow_ne_one_of 66417393611 6 13283478722 61126100703 (by norm_num) (by norm_num) (by decide)
      (by norm_num) (by norm_num)
  rcases (Nat.Prime.dvd_mul hq).mp hdvd with h | hdvd
  · have hqe : q = 53 := (Nat.prime_dvd_prime_iff_eq hq prime53).mp h
    rw [hqe, show (66417393611 - 1) / 53 = 1253158370 by norm_num]
    exact pow_ne_one_of 66417393611 6 1253158370 6582512042 (by norm_num) (by norm_num) (by decide)
      (by norm_num) (by norm_num)
  rcases (Nat.Prime.dvd_mul hq).mp hdvd with h | hdvd
  · have hqe : q = 173 := (Nat.prime_dvd_prime_iff_eq hq prime173).mp h
    rw [hqe, show (66417393611 - 1) / 173 = 383915570 by norm_num]
    exact pow_ne_one_of 66417393611 6 383915570 31915108789 (by norm_num) (by norm_num) (by decide)
      (by norm_num) (by norm_num)
  rcases (Nat.Prime.dvd_mul hq).mp hdvd with h | hdvd
  · have hqe : q = 197 := (Nat.prime_dvd_prime_iff_eq hq prime197).mp h
    rw [hqe, show (66417393611 - 1) / 197 = 337144130 by norm_num]
    exact pow_ne_one_of 66417393611 6 337144130 42189189063 (by norm_num) (by norm_num) (by decide)
      (by norm_num) (by norm_num)
  have hqe : q = 3677 := (Nat.prime_dvd_prime_iff_eq hq prime3677).mp hdvd
  rw [hqe, show (66417393611 - 1) / 3677 = 18062930 by norm_num]
  exact pow_ne_one_of 66417393611 6 18062930 22248715490 (by norm_num) (by norm_num) (by decide)
    (by norm_num) (by norm_num)

theorem prime11290956913871 : Nat.Prime 11290956913871 := by
  have hfac : 11290956913871 - 1 = 2 * (5 * (17 * 66417393611)) := by norm_num
  refine lucas_primality 11290956913871 ((13 : ℕ) : ZMod 11290956913871)
    (pow_eq_one_of 11290956913871 13 (11290956913871 - 1) (by norm_num) (by norm_num) (by decide)) ?_
  intro q hq hdvd
  rw [hfac] at hdvd
  rcases (Nat.Prime.dvd_mul hq).mp hdvd with h | hdvd
  · have hqe : q = 2 := (Nat.prime_dvd_prime_iff_eq hq prime2).mp h
    rw [hqe, show (11290956913871 - 1) / 2 = 5645478456935 by norm_num]
    exact pow_ne_one_of 11290956913871 13 5645478456935 11290956913870 (by norm_num) (by norm_num) (by decide)
      (by norm_num) (by norm_num)
  rcases (Nat.Prime.dvd_mul hq).mp hdvd with h | hdvd
  · have hqe : q = 5 := (Nat.prime_dvd_prime_iff_eq hq prime5).mp h
    rw [hqe, show (11290956913871 - 1) / 5 = 2258191382774 by norm_num]
    exact pow_ne_one_of 11290956913871 13 2258191382774 143627332910 (by norm_num) (by norm_num) (by decide)
      (by norm_num) (by norm_num)
  rcases (Nat.Prime.dvd_mul hq).mp hdvd with h | hdvd
  · have hqe : q = 17 := (Nat.prime_dvd_prime_iff_eq hq prime17).mp h
    rw [hqe, show (11290956913871 - 1) / 17 = 664173936110 by norm_num]
    exact pow_ne_one_of 11290956913871 13 664173936110 1388400962582 (by norm_num) (by norm_num) (by decide)
      (by norm_num) (by norm_num)
  have hqe : q = 66417393611 := (Nat.prime_dvd_prime_iff_eq hq prime66417393611).mp hdvd
  rw [hqe, show (11290956913871 - 1) / 66417393611 = 170 by norm_num]
  exact pow_ne_one_of 11290956913871 13 170 4101875413716 (by norm_num) (by norm_num) (by decide)
    (by norm_num) (by norm_num)

theorem prime46076956964474543 : Nat.Prime 46076956964474543 := by
  have hfac : 46076956964474543 - 1 = 2 * (23 * (18169 * (78283 * 704251))) := by norm_num
  refine lucas_primality 46076956964474543 ((5 : ℕ) : ZMod 46076956964474543)
    (pow_eq_one_of 46076956964474543 5 (46076956964474543 - 1) (by norm_num) (by norm_num) (by decide)) ?_
  intro q hq hdvd
  rw [hfac] at hdvd
  rcases (Nat.Prime.dvd_mul hq).mp hdvd with h | hdvd
  · have hqe : q = 2 := (Nat.prime_dvd_prime_iff_eq hq prime2).mp h
    rw [hqe, show (46076956964474543 - 1) / 2 = 23038478482237271 by norm_num]
    exact pow_ne_one_of 46076956964474543 5 23038478482237271 46076956964474542 (by norm_num) (by norm_num) (by decide)
      (by norm_num) (by norm_num)
  rcases (Nat.Prime.dvd_mul hq).mp hdvd with h | hdvd
  · have hqe : q = 23 := (Nat.prime_dvd_prime_iff_eq hq prime23).mp h
    rw [hqe, show (46076956964474543 - 1) / 23 = 2003345954977154 by norm_num]
    exact pow_ne_one_of 46076956964474543 5 2003345954977154 21157064686894433 (by norm_num) (by norm_num) (by decide)
      (by norm_num) (by norm_num)
  rcases (Nat.Prime.dvd_mul hq).mp hdvd with h | hdvd
  · have hqe : q = 18169 := (Nat.prime_dvd_prime_iff_eq hq prime18169).mp h
    rw [hqe, show (46076956964474543 - 1) / 18169 = 2536020527518 by norm_num]
    exact pow_ne_one_of 46076956964474543 5 2536020527518 19827985741493455 (by norm_num) (by norm_num) (by decide)
      (by norm_num) (by norm_num)
  rcases (Nat.Prime.dvd_mul hq).mp hdvd with h | hdvd
  · have hqe : q = 78283 := (Nat.prime_dvd_prime_iff_eq hq prime78283).mp h
    rw [hqe, show (46076956964474543 - 1) / 78283 = 588594675274 by norm_num]
    exact pow_ne_one_of 46076956964474543 5 588594675274 42611498466014028 (by norm_num) (by norm_num) (by decide)
      (by norm_num) (by norm_num)
  have hqe : q = 704251 := (Nat.prime_dvd_prime_iff_eq hq prime704251).mp hdvd
  rw [hqe, show (46076956964474543 - 1) / 704251 = 65426896042 by norm_num]
  exact pow_ne_one_of 46076956964474543 5 65426896042 39823863406150289 (by norm_num) (by norm_num) (by decide)
    (by norm_num) (by norm_num)

theorem prime774023187263532362759620327192479577272145303 : Nat.Prime 774023187263532362759620327192479577272145303 := by
  have hfac : 774023187263532362759620327192479577272145303 - 1 = 2 * (3 ^ 2 * (2411 * (34282281433 * (11290956913871 * 46076956964474543)))) := by norm_num
  refine lucas_primality 774023187263532362759620327192479577272145303 ((3 : ℕ) : ZMod 774023187263532362759620327192479577272145303)
    (pow_eq_one_of 774023187263532362759620327192479577272145303 3 (774023187263532362759620327192479577272145303 - 1) (by norm_num) (by norm_num) (by decide)) ?_
  intro q hq hdvd
  rw [hfac] at hdvd
  rcases (Nat.Prime.dvd_mul hq).mp hdvd with h | hdvd
  · have hqe : q = 2 := (Nat.prime_dvd_prime_iff_eq hq prime2).mp h
    rw [hqe, show (774023187263532362759620327192479577272145303 - 1) / 2 = 387011593631766181379810163596239788636072651 by norm_num]
    exact pow_ne_one_of 774023187263532362759620327192479577272145303 3 387011593631766181379810163596239788636072651 774023187263532362759620327192479577272145302 (by norm_num) (by norm_num) (by decide)
      (by norm_num) (by norm_num)
  rcases (Nat.Prime.dvd_mul hq).mp hdvd with h | hdvd
  · have hqe : q = 3 := prime_dvd_pow_eq hq prime3 h
    rw [hqe, show (774023187263532362759620327192479577272145303 - 1) / 3 = 258007729087844120919873442397493192424048434 by norm_num]
    exact pow_ne_one_of 774023187263532362759620327192479577272145303 3 258007729087844120919873442397493192424048434 342105087900156787254680645010758830420509371 (by norm_num) (by norm_num) (by decide)
      (by norm_num) (by norm_num)
  rcases (Nat.Prime.dvd_mul hq).mp hdvd with h | hdvd
  · have hqe : q = 2411 := (Nat.prime_dvd_prime_iff_eq hq prime2411).mp h
    rw [hqe, show (774023187263532362759620327192479577272145303 - 1) / 2411 = 321038236110963236316723487014715710191682 by norm_num]
    exact pow_ne_one_of 774023187263532362759620327192479577272145303 3 321038236110963236316723487014715710191682 324584374317922097696394325333006843052436777 (by norm_num) (by norm_num) (by decide)
      (by norm_num) (by norm_num)
  rcases (Nat.Prime.dvd_mul hq).mp hdvd with h | hdvd
  · have hqe : q = 34282281433 := (Nat.prime_dvd_prime_iff_eq hq prime34282281433).mp h
    rw [hqe, show (774023187263532362759620327192479577272145303 - 1) / 34282281433 = 22577936908202977552973533084188294 by norm_num]
    exact pow_ne_one_of 774023187263532362759620327192479577272145303 3 22577936908202977552973533084188294 595581219033769797539780519355039589707495215 (by norm_num) (by norm_num) (by decide)
      (by norm_num) (by norm_num)
  rcases (Nat.Prime.dvd_mul hq).mp hdvd with h | hdvd
  · have hqe : q = 11290956913871 := (Nat.prime_dvd_prime_iff_eq hq prime11290956913871).mp h
    rw [hqe, show (774023187263532362759620327192479577272145303 - 1) / 11290956913871 = 68552487904071337216976429044362 by norm_num]
    exact pow_ne_one_of 774023187263532362759620327192479577272145303 3 68552487904071337216976429044362 204079885604637912806045183145727919649718033 (by norm_num) (by norm_num) (by decide)
      (by norm_num) (by norm_num)
  have hqe : q = 46076956964474543 := (Nat.prime_dvd_prime_iff_eq hq prime46076956964474543).mp hdvd
  rw [hqe, show (774023187263532362759620327192479577272145303 - 1) / 46076956964474543 = 16798487535978261528513091914 by norm_num]
  exact pow_ne_one_of 774023187263532362759620327192479577272145303 3 16798487535978261528513091914 401626945418811252927162561870334717705066067 (by norm_num) (by norm_num) (by decide)
    (by norm_num) (by norm_num)

theorem prime835945042244614951780389953367877943453916927241 : Nat.Prime 835945042244614951780389953367877943453916927241 := by
  have hfac : 835945042244614951780389953367877943453916927241 - 1 = 2 ^ 3 * (3 ^ 3 * (5 * 774023187263532362759620327192479577272145303)) := by norm_num
  refine lucas_primality 835945042244614951780389953367877943453916927241 ((11 : ℕ) : ZMod 835945042244614951780389953367877943453916927241)
    (pow_eq_one_of 835945042244614951780389953367877943453916927241 11 (835945042244614951780389953367877943453916927241 - 1) (by norm_num) (by norm_num) (by decide)) ?_
  intro q hq hdvd
  rw [hfac] at hdvd
  rcases (Nat.Prime.dvd_mul hq).mp hdvd with h | hdvd
  · have hqe : q = 2 := prime_dvd_pow_eq hq prime2 h
    rw [hqe, show (835945042244614951780389953367877943453916927241 - 1) / 2 = 417972521122307475890194976683938971726958463620 by norm_num]
    exact pow_ne_one_of 835945042244614951780389953367877943453916927241 11 417972521122307475890194976683938971726958463620 835945042244614951780389953367877943453916927240 (by norm_num) (by norm_num) (by decide)
      (by norm_num) (by norm_num)
  rcases (Nat.Prime.dvd_mul hq).mp hdvd with h | hdvd
  · have hqe : q = 3 := prime_dvd_pow_eq hq prime3 h
    rw [hqe, show (835945042244614951780389953367877943453916927241 - 1) / 3 = 278648347414871650593463317789292647817972309080 by norm_num]
    exact pow_ne_one_of 835945042244614951780389953367877943453916927241 11 278648347414871650593463317789292647817972309080 659583265388817893262429286824048416550690147508 (by norm_num) (by norm_num) (by decide)
      (by norm_num) (by norm_num)
  rcases (Nat.Prime.dvd_mul hq).mp hdvd with h | hdvd
  · have hqe : q = 5 := (Nat.prime_dvd_prime_iff_eq hq prime5).mp h
    rw [hqe, show (835945042244614951780389953367877943453916927241 - 1) / 5 = 167189008448922990356077990673575588690783385448 by norm_num]
    exact pow_ne_one_of 835945042244614951780389953367877943453916927241 11 167189008448922990356077990673575588690783385448 740637215997056829735642035568637448488372650221 (by norm_num) (by norm_num) (by decide)
      (by norm_num) (by norm_num)
  have hqe : q = 774023187263532362759620327192479577272145303 := (Nat.prime_dvd_prime_iff_eq hq prime774023187263532362759620327192479577272145303).mp hdvd
  rw [hqe, show (835945042244614951780389953367877943453916927241 - 1) / 774023187263532362759620327192479577272145303 = 1080 by norm_num]
  exact pow_ne_one_of 835945042244614951780389953367877943453916927241 11 1080 131635143045193215265986545828163138097153446769 (by norm_num) (by norm_num) (by decide)
    (by norm_num) (by norm_num)

theorem prime115792089210356248762697446949407573530086143415290314195533631308867097853951 : Nat.Prime 115792089210356248762697446949407573530086143415290314195533631308867097853951 := by
  have hfac : 115792089210356248762697446949407573530086143415290314195533631308867097853951 - 1 = 2 * (3 * (5 ^ 2 * (17 * (257 * (641 * (1531 * (65537 * (490463 * (6700417 * 835945042244614951780389953367877943453916927241))))))))) := by norm_num
  refine lucas_primality 115792089210356248762697446949407573530086143415290314195533631308867097853951 ((6 : ℕ) : ZMod 115792089210356248762697446949407573530086143415290314195533631308867097853951)
    (pow_eq_one_of 115792089210356248762697446949407573530086143415290314195533631308867097853951 6 (115792089210356248762697446949407573530086143415290314195533631308867097853951 - 1) (by norm_num) (by norm_num) (by decide)) ?_
  intro q hq hdvd
  rw [hfac] at hdvd
  rcases (Nat.Prime.dvd_mul hq).mp hdvd with h | hdvd
  · have hqe : q = 2 := (Nat.prime_dvd_prime_iff_eq hq prime2).mp h
    rw [hqe, show (115792089210356248762697446949407573530086143415290314195533631308867097853951 - 1) / 2 = 57896044605178124381348723474703786765043071707645157097766815654433548926975 by norm_num]
    exact pow_ne_one_of 115792089210356248762697446949407573530086143415290314195533631308867097853951 6 57896044605178124381348723474703786765043071707645157097766815654433548926975 115792089210356248762697446949407573530086143415290314195533631308867097853950 (by norm_num) (by norm_num) (by decide)
      (by norm_num) (by norm_num)
  rcases (Nat.Prime.dvd_mul hq).mp hdvd with h | hdvd
  · have hqe : q = 3 := (Nat.prime_dvd_prime_iff_eq hq prime3).mp h
    rw [hqe, show (115792089210356248762697446949407573530086143415290314195533631308867097853951 - 1) / 3 = 38597363070118749587565815649802524510028714471763438065177877102955699284650 by norm_num]
    exact pow_ne_one_of 115792089210356248762697446949407573530086143415290314195533631308867097853951 6 38597363070118749587565815649802524510028714471763438065177877102955699284650 35023605962199012655950408426974944573707350271027821222272152018745053261006 (by norm_num) (by norm_num) (by decide)
      (by norm_num) (by norm_num)
  rcases (Nat.Prime.dvd_mul hq).mp hdvd with h | hdvd
  · have hqe : q = 5 := prime_dvd_pow_eq hq prime5 h
    rw [hqe, show (115792089210356248762697446949407573530086143415290314195533631308867097853951 - 1) / 5 = 23158417842071249752539489389881514706017228683058062839106726261773419570790 by norm_num]
    exact pow_ne_one_of 115792089210356248762697446949407573530086143415290314195533631308867097853951 6 23158417842071249752539489389881514706017228683058062839106726261773419570790 6229376481089818046009298593172269900623949992504136305657492441987309054734 (by norm_num) (by norm_num) (by decide)
      (by norm_num) (by norm_num)
  rcases (Nat.Prime.dvd_mul hq).mp hdvd with h | hdvd
  · have hqe : q = 17 := (Nat.prime_dvd_prime_iff_eq hq prime17).mp h
    rw [hqe, show (115792089210356248762697446949407573530086143415290314195533631308867097853951 - 1) / 17 = 6811299365315073456629261585259269031181537847958253776207860665227476344350 by norm_num]
    exact pow_ne_one_of 115792089210356248762697446949407573530086143415290314195533631308867097853951 6 6811299365315073456629261585259269031181537847958253776207860665227476344350 2134607866216034886983661339381351782330682792970743088143795280383550005858 (by norm_num) (by norm_num) (by decide)
      (by norm_num) (by norm_num)
  rcases (Nat.Prime.dvd_mul hq).mp hdvd with h | hdvd
  · have hqe : q = 257 := (Nat.prime_dvd_prime_iff_eq hq prime257).mp h
    rw [hqe, show (115792089210356248762697446949407573530086143415290314195533631308867097853951 - 1) / 257 = 450552876304888127481313023149445811401113398503075152511804012874969252350 by norm_num]
    exact pow_ne_one_of 115792089210356248762697446949407573530086143415290314195533631308867097853951 6 450552876304888127481313023149445811401113398503075152511804012874969252350 94784035371912852912874182022529621622294755194336741774199288822185853816770 (by norm_num) (by norm_num) (by decide)
      (by norm_num) (by norm_num)
  rcases (Nat.Prime.dvd_mul hq).mp hdvd with h | hdvd
  · have hqe : q = 641 := (Nat.prime_dvd_prime_iff_eq hq prime641).mp h
    rw [hqe, show (115792089210356248762697446949407573530086143415290314195533631308867097853951 - 1) / 641 = 180642884883551090113412553743225543728683531069095653971191312494332445950 by norm_num]
    exact pow_ne_one_of 115792089210356248762697446949407573530086143415290314195533631308867097853951 6 180642884883551090113412553743225543728683531069095653971191312494332445950 73772617749849487604415205117597022814228633036826951038419219002741772834126 (by norm_num) (by norm_num) (by decide)
      (by norm_num) (by norm_num)
  rcases (Nat.Prime.dvd_mul hq).mp hdvd with h | hdvd
  · have hqe : q = 1531 := (Nat.prime_dvd_prime_iff_eq hq prime1531).mp h
    rw [hqe, show (115792089210356248762697446949407573530086143415290314195533631308867097853951 - 1) / 1531 = 75631671593962278747679586511696651554595782766355528540518374466928215450 by norm_num]
    exact pow_ne_one_of 115792089210356248762697446949407573530086143415290314195533631308867097853951 6 75631671593962278747679586511696651554595782766355528540518374466928215450 87083230532117752554147991845578870696698760857476716249127647529451443651015 (by norm_num) (by norm_num) (by decide)
      (by norm_num) (by norm_num)
  rcases (Nat.Prime.dvd_mul hq).mp hdvd with h | hdvd
  · have hqe : q = 65537 := (Nat.prime_dvd_prime_iff_eq hq prime65537).mp h
    rw [hqe, show (115792089210356248762697446949407573530086143415290314195533631308867097853951 - 1) / 65537 = 1766820104831717179039282343552612623862644665079120408250814521703268350 by norm_num]
    exact pow_ne_one_of 115792089210356248762697446949407573530086143415290314195533631308867097853951 6 1766820104831717179039282343552612623862644665079120408250814521703268350 108225251348322012978461859646483553569711948028822648349432096442594643790199 (by norm_num) (by norm_num) (by decide)
      (by norm_num) (by norm_num)
  rcases (Nat.Prime.dvd_mul hq).mp hdvd with h | hdvd
  · have hqe : q = 490463 := (Nat.prime_dvd_prime_iff_eq hq prime490463).mp h
    rw [hqe, show (115792089210356248762697446949407573530086143415290314195533631308867097853951 - 1) / 490463 = 236087307728322521296606363679640612095277612001904963668072069266931650 by norm_num]
    exact pow_ne_one_of 115792089210356248762697446949407573530086143415290314195533631308867097853951 6 236087307728322521296606363679640612095277612001904963668072069266931650 47551681459734928383308379463919739026341324778493777690629929511110838017908 (by norm_num) (by norm_num) (by decide)
      (by norm_num) (by norm_num)
  rcases (Nat.Prime.dvd_mul hq).mp hdvd with h | hdvd
  · have hqe : q = 6700417 := (Nat.prime_dvd_prime_iff_eq hq prime6700417).mp h
    rw [hqe, show (115792089210356248762697446949407573530086143415290314195533631308867097853951 - 1) / 6700417 = 17281325805596315686426299579475064541518258253969911752586985453124350 by norm_num]
    exact pow_ne_one_of 115792089210356248762697446949407573530086143415290314195533631308867097853951 6 17281325805596315686426299579475064541518258253969911752586985453124350 86900396401832178961235217232859237981114935325153096234781032859889316105536 (by norm_num) (by norm_num) (by decide)
      (by norm_num) (by norm_num)
  have hqe : q = 835945042244614951780389953367877943453916927241 := (Nat.prime_dvd_prime_iff_eq hq prime835945042244614951780389953367877943453916927241).mp hdvd
  rw [hqe, show (115792089210356248762697446949407573530086143415290314195533631308867097853951 - 1) / 835945042244614951780389953367877943453916927241 = 138516389665330497628477975950 by norm_num]
  exact pow_ne_one_of 115792089210356248762697446949407573530086143415290314195533631308867097853951 6 138516389665330497628477975950 93882109679675135199221146535073045946130483842109404968837642110682298522059 (by norm_num) (by norm_num) (by decide)
    (by norm_num) (by norm_num)

theorem pP256_prime : Nat.Prime pP256 := by
  rw [pP256_eq]
  exact prime115792089210356248762697446949407573530086143415290314195533631308867097853951

/-! ## The field layer: Montgomery operations and the inversion chain -/
instance instFactPrimeP256 : Fact (Nat.Prime pP256) := ⟨pP256_prime⟩

theorem RInv_RMont : RInv * RMont = 1 := by
  rw [RInv, RMont, ← Nat.cast_mul, ← ZMod.natCast_mod,
    show (RInvN * 2 ^ 256) % pP256 = 1 by rw [pP256_eq]; norm_num [RInvN]]
  exact Nat.cast_one

theorem sqIter_comm {α β : Type} (f : α → β) (sqa : α → α) (sqb : β → β)
    (h : ∀ x, f (sqa x) = sqb (f x)) (n : Nat) : ∀ x : α, f (sqIter sqa n x) = sqIter sqb n (f x) := by
  induction n with
  | zero => intro x; rfl
  | succ n ih => intro x; rw [sqIter, sqIter, ← h, ih]

theorem invChain_comm {α β : Type} (f : α → β) (sqa : α → α) (mula : α → α → α)
    (sqb : β → β) (mulb : β → β → β)
    (hsq : ∀ x, f (sqa x) = sqb (f x))
    (hmul : ∀ x y, f (mula x y) = mulb (f x) (f y)) (a : α) :
    f (invChain sqa mula a) = invChain sqb mulb (f a) := by
  unfold invChain invTail
  simp only [hmul, sqIter_comm f sqa sqb hsq, hsq]

theorem invChain_exponent :
    invChain (fun e : Nat => e + e) (fun e1 e2 : Nat => e1 + e2) 1 = pP256 - 2 := by decide

theorem chain_pow {M : Type} [CommMonoid M] (v : M) :
    invChain (fun x : M => x * x) (fun x y : M => x * y) v = v ^ (pP256 - 2) := by
  have h := invChain_comm (fun e : Nat => v ^ e) (fun e : Nat => e + e)
    (fun e1 e2 : Nat => e1 + e2) (fun x : M => x * x) (fun x y : M => x * y)
    (fun e => pow_add v e e) (fun e1 e2 => pow_add v e1 e2) 1
  rw [invChain_exponent, pow_one] at h
  exact h.symm

theorem fromMont_mulMont (x y : Fp) : fromMont (mulMont x y) = fromMont x * fromMont y := by
  unfold fromMont mulMont; ring

theorem fromMont_sqrMont (x : Fp) : fromMont (sqrMont x) = fromMont x * fromMont x := by
  unfold fromMont sqrMont; ring

theorem mod_inverse_value (a : Fp) :
    fromMont (ecp_nistz256_mod_inverse a) = (fromMont a) ^ (pP256 - 2) := by
  have h := invChain_comm fromMont sqrMont mulMont (fun x : Fp => x * x)
    (fun x y : Fp => x * y) fromMont_sqrMont fromMont_mulMont a
  rw [ecp_nistz256_mod_inverse, h, chain_pow]

theorem fromMont_eq_zero_iff (a : Fp) : fromMont a = 0 ↔ a = 0 := by
  constructor
  · intro h
    have h2 : fromMont a * RMont = 0 := by rw [h, zero_mul]
    rw [fromMont, mul_assoc, RInv_RMont, mul_one] at h2
    exact h2
  · intro h
    rw [h, fromMont, zero_mul]

/-- The chain maps zero to zero (every operation multiplies by its inputs). -/
theorem mod_inverse_zero : ecp_nistz256_mod_inverse 0 = 0 := by
  have h := mod_inverse_value 0
  rw [show fromMont (0 : Fp) = 0 by rw [fromMont, zero_mul],
    zero_pow (show pP256 - 2 ≠ 0 by rw [pP256_eq]; norm_num)] at h
  exact (fromMont_eq_zero_iff _).mp h

/-- Fermat: for nonzero input the chain output is the multiplicative inverse
of the input, both read through the Montgomery value map. -/
theorem fromMont_inv_mul (a : Fp) (ha : a ≠ 0) :
    fromMont (ecp_nistz256_mod_inverse a) * fromMont a = 1 := by
  rw [mod_inverse_value, ← pow_succ,
    show pP256 - 2 + 1 = pP256 - 1 by rw [pP256_eq]]
  apply ZMod.pow_card_sub_one_eq_one
  intro hz
  exact ha ((fromMont_eq_zero_iff a).mp hz)

theorem mod_inverse_eq_inv (a : Fp) (ha : a ≠ 0) :
    fromMont (ecp_nistz256_mod_inverse a) = (fromMont a)⁻¹ :=
  eq_inv_of_mul_eq_one_left (fromMont_inv_mul a ha)

/-- C3: the fixed inversion chain computes `a^(p-2)` (so, multiplied by `a`,
it gives 1 for every nonzero `a`), and maps 0 to 0. Values are read through
`fromMont`, the out-of-Montgomery-domain value map. -/
theorem mod_inverse_fermat :
    (∀ a : Fp, fromMont (ecp_nistz256_mod_inverse a) = (fromMont a) ^ (pP256 - 2)) ∧
    ecp_nistz256_mod_inverse 0 = 0 ∧
    (∀ a : Fp, a ≠ 0 → fromMont (ecp_nistz256_mod_inverse a) * fromMont a = 1) :=
  ⟨mod_inverse_value, mod_inverse_zero, fromMont_inv_mul⟩

/-- Witness for C3 at the field element 1. -/
theorem mod_inverse_fermat_witness :
    fromMont (ecp_nistz256_mod_inverse 1) * fromMont 1 = 1 :=
  mod_inverse_fermat.2.2 1 one_ne_zero

/-- C5 counterexample: the multiplicand order of the chain tail is
`a, p32, p32, p16, p8, p4, p2, a` - it begins with `a` and uses `p32` twice -
not `p32, p16, p8, p4, p2, a` as claimed. -/
theorem inverse_tail_order_refuted :
    invTailTrace.tail = [InvArg.inA, InvArg.argP32, InvArg.argP32, InvArg.argP16,
      InvArg.argP8, InvArg.argP4, InvArg.argP2, InvArg.inA] ∧
    invTailTrace.tail ≠ [InvArg.argP32, InvArg.argP16, InvArg.argP8, InvArg.argP4,
      InvArg.argP2, InvArg.inA] := by decide

/-- C5 amended: after the powers `p2..p32` are built, the remaining chain is
squarings of an accumulator seeded from `p32`, interleaved with
multiplications whose multiplicands occur in the order
`a, p32, p32, p16, p8, p4, p2, a`. -/
theorem inverse_tail_order :
    invTailTrace = [InvArg.argP32, InvArg.inA, InvArg.argP32, InvArg.argP32, InvArg.argP16,
      InvArg.argP8, InvArg.argP4, InvArg.argP2, InvArg.inA] := by decide

theorem get_affine_ok (X Y Z : Fp) (wantY : Bool) (hZ : Z ≠ 0) :
    ecp_nistz256_get_affine X Y Z wantY =
      Except.ok (fromMont X * ((fromMont Z)⁻¹) ^ 2,
        if wantY then some (fromMont Y * ((fromMont Z)⁻¹) ^ 3) else none) := by
  have hinv : fromMont (ecp_nistz256_mod_inverse Z) = (fromMont Z)⁻¹ :=
    mod_inverse_eq_inv Z hZ
  have hx : fromMont (mulMont (sqrMont (ecp_nistz256_mod_inverse Z)) X)
      = fromMont X * ((fromMont Z)⁻¹) ^ 2 := by
    rw [fromMont_mulMont, fromMont_sqrMont, hinv]
    ring_nf
  have hy : fromMont (mulMont (mulMont (ecp_nistz256_mod_inverse Z)
        (sqrMont (ecp_nistz256_mod_inverse Z))) Y)
      = fromMont Y * ((fromMont Z)⁻¹) ^ 3 := by
    rw [fromMont_mulMont, fromMont_mulMont, fromMont_sqrMont, hinv]
    ring_nf
  simp only [ecp_nistz256_get_affine, if_neg hZ]
  cases wantY
  · simp only [Bool.false_eq_true, if_false, hx]
  · simp only [if_true, hx, hy]

/-- C8: conversion to affine coordinates fails with PointAtInfinity exactly
when the projective input is the identity (`Z = 0`); otherwise it succeeds
with `x = X·inverse(Z)²` and, when requested, `y = Y·inverse(Z)³`, all values
read out of the Montgomery domain. -/
theorem get_affine_spec (X Y Z : Fp) (wantY : Bool) :
    (ecp_nistz256_get_affine X Y Z wantY = Except.error ECerr.pointAtInfinity ↔ Z = 0) ∧
    (Z ≠ 0 → ecp_nistz256_get_affine X Y Z wantY =
      Except.ok (fromMont X * ((fromMont Z)⁻¹) ^ 2,
        if wantY then some (fromMont Y * ((fromMont Z)⁻¹) ^ 3) else none)) := by
  refine ⟨⟨fun h => ?_, fun h => ?_⟩, get_affine_ok X Y Z wantY⟩
  · by_contra hZ
    rw [get_affine_ok X Y Z wantY hZ] at h
    exact Except.noConfusion h
  · simp only [ecp_nistz256_get_affine, if_pos h]

/-- Witness for C8 at `X = Y = Z = 1` with `y` requested. -/
theorem get_affine_spec_witness :
    ecp_nistz256_get_affine 1 1 1 true =
      Except.ok (fromMont 1 * ((fromMont 1)⁻¹) ^ 2,
        if true then some (fromMont 1 * ((fromMont 1)⁻¹) ^ 3) else none) :=
  (get_affine_spec 1 1 1 true).2 one_ne_zero

theorem bytesPair (a k : Nat) :
    p_str a k ||| (p_str a (k + 1) <<< 8) = (a >>> (8 * k)) % 65536 := by
  apply Nat.eq_of_testBit_eq
  intro i
  simp only [p_str, Nat.testBit_or, Nat.testBit_shiftLeft, Nat.testBit_shiftRight,
    show (256 : Nat) = 2 ^ 8 by norm_num, show (65536 : Nat) = 2 ^ 16 by norm_num,
    Nat.testBit_mod_two_pow]
  rcases lt_or_le i 8 with hi | hi
  · have h1 : ¬ (i ≥ 8) := by omega
    have h2 : i < 16 := by omega
    simp [hi, h1, h2]
  · rcases lt_or_le i 16 with hi2 | hi2
    · have hni : ¬ (i < 8) := by omega
      have hlow : i - 8 < 8 := by omega
      have he : 8 * (k + 1) + (i - 8) = 8 * k + i := by omega
      simp [hni, hi, hlow, he, hi2]
    · have hni : ¬ (i < 8) := by omega
      have hni2 : ¬ (i - 8 < 8) := by omega
      have hni3 : ¬ (i < 16) := by omega
      simp [hni, hni2, hni3, hi]

/-- Two-byte window extraction as the C loops do it. -/
theorem extract_two_bytes (a i W : Nat) (hW : W ≤ 8) :
    ((p_str a ((i - 1) / 8) ||| (p_str a ((i - 1) / 8 + 1) <<< 8)) >>> ((i - 1) % 8))
        &&& (2 ^ W - 1)
      = (a >>> (i - 1)) % 2 ^ W := by
  rw [bytesPair, Nat.and_pow_two_sub_one_eq_mod]
  set k := (i - 1) / 8
  set s := (i - 1) % 8
  have hs : s < 8 := Nat.mod_lt _ (by norm_num)
  have hks : 8 * k + s = i - 1 := Nat.div_add_mod (i - 1) 8
  have hsplit : (65536 : Nat) = 2 ^ s * 2 ^ (16 - s) := by
    rw [← pow_add, show s + (16 - s) = 16 by omega]
    norm_num
  rw [Nat.shiftRight_eq_div_pow, show (65536:Nat) = 2 ^ s * 2 ^ (16 - s) from hsplit,
    Nat.mod_mul_right_div_self, ← Nat.shiftRight_eq_div_pow, ← Nat.shiftRight_add, hks,
    Nat.mod_mod_of_dvd]
  exact pow_dvd_pow 2 (by omega)

theorem wvalMid5_eq (a m : Nat) (hm : 1 ≤ m) : wvalMid5 a (5 * m) = wval 5 a m := by
  have h := extract_two_bytes a (5 * m) 6 (by omega)
  rw [wvalMid5, show kMask5 = 2 ^ 6 - 1 by rfl, h, wval,
    show 5 * m = (5 * m - 1) + 1 by omega, shift_two_mul]
  norm_num

theorem wvalMid7_eq (a m : Nat) (hm : 1 ≤ m) : wvalMid7 a (7 * m) = wval 7 a m := by
  have h := extract_two_bytes a (7 * m) 8 (by omega)
  rw [wvalMid7, show kMask7 = 2 ^ 8 - 1 by rfl, h, wval,
    show 7 * m = (7 * m - 1) + 1 by omega, shift_two_mul]
  norm_num

theorem wvalLast5_eq (a : Nat) : wvalLast5 a = wval 5 a 0 := by
  rw [wvalLast5, show kMask5 = 2 ^ 6 - 1 by rfl, Nat.and_pow_two_sub_one_eq_mod, wval]
  simp only [Nat.mul_zero, Nat.shiftRight_zero, p_str, Nat.shiftLeft_eq, Nat.shiftRight_zero]
  rw [show (256 : Nat) = 64 * 4 by norm_num, pow_succ]
  omega

theorem wvalFirst7_eq (a : Nat) : wvalFirst7 a = wval 7 a 0 := by
  rw [wvalFirst7, show kMask7 = 2 ^ 8 - 1 by rfl, Nat.and_pow_two_sub_one_eq_mod, wval]
  simp only [Nat.mul_zero, Nat.shiftRight_zero, p_str, Nat.shiftLeft_eq]
  omega

theorem wvalFirst_eq (a : Nat) (ha : a < 2 ^ 256) : wvalFirst a = wval 5 a 51 := by
  rw [wvalFirst, show kMask5 = 2 ^ 6 - 1 by rfl, Nat.and_pow_two_sub_one_eq_mod]
  norm_num [p_str]
  rw [wval, show 5 * 51 = 254 + 1 by norm_num, shift_two_mul]
  rw [Nat.shiftRight_eq_div_pow, Nat.shiftRight_eq_div_pow, Nat.shiftRight_eq_div_pow]
  have h1 : a / 2 ^ 254 < 4 := by omega
  omega

theorem fastPath_zero_junk : fastPath (1 : ℤ) 0 = JRep.junk := by decide

theorem windowed_zero : ecp_nistz256_windowed_mul ((0 : ℤ), (1 : ℤ)) [] = 0 := by decide

/-- C1, at the failing input: with the standard generator, base scalar 0 and
no auxiliary points, the call succeeds (returns 1) but stores the junk triple
`(0, 0, ONE)` - seeded at lines 540-545 with `Z = ONE` even though the first
window selected the `(0,0)` identity encoding - which is not a representation
of any group element, in particular not of `0·G` (the point at infinity, the
value the naive reference computes). -/
theorem points_mul_zero_scalar_bug :
    ecp_nistz256_points_mul (1 : ℤ) true (some 0) [] = Except.ok JRep.junk ∧
    (JRep.junk : JRep ℤ) ≠ JRep.ok ((0 : ℤ) • (1 : ℤ)) := by
  constructor
  · rw [show ecp_nistz256_points_mul (1 : ℤ) true (some 0) []
        = Except.ok (fastPath (1 : ℤ) (reduceScalar 0)) from rfl,
      show reduceScalar 0 = 0 by decide, fastPath_zero_junk]
  · exact fun h => JRep.noConfusion h

/-- C4 counterexample: at the scalar 0 (first 7-bit window magnitude 0), the
fast path yields the junk triple while the forced general path yields a true
representation of the point at infinity - the two paths do not agree. -/
theorem fast_general_paths_diverge_at_zero :
    fastPath (1 : ℤ) 0 = JRep.junk ∧
    ecp_nistz256_windowed_mul ((0 : ℤ), (1 : ℤ)) [] = 0 ∧
    fastPath (1 : ℤ) 0 ≠ JRep.ok (ecp_nistz256_windowed_mul ((0 : ℤ), (1 : ℤ)) []) := by
  refine ⟨fastPath_zero_junk, windowed_zero, ?_⟩
  rw [fastPath_zero_junk]
  exact fun h => JRep.noConfusion h



section PointEngineProofs

variable {G : Type} [AddCommGroup G]

theorem select_w5_smul (P : G) (idx : Nat) (h : idx ≤ 16) :
    select_w5 P idx = (idx : ℤ) • P := by
  interval_cases idx <;>
    simp only [select_w5, ecTableList, pointDouble, pointAdd, List.getD, if_true, if_false,
      reduceIte, List.get?, List.getElem?_cons_zero, List.getElem?_cons_succ, Option.getD_some] <;>
    push_cast <;> module

theorem signedSelect5_eq (P : G) (v : Nat) (hv : v < 64) :
    signedSelect5 P (booth_recode_w5 v) = sdig 5 v • P := by
  rw [← booth_w5_digit v hv, signedSelect5, signedDigit,
    select_w5_smul P _ (booth_w5_mag_le v hv)]
  rcases Nat.mod_two_eq_zero_or_one (booth_recode_w5 v) with h | h
  · rw [if_neg (by omega), h]
    norm_num
  · rw [if_pos h, h]
    norm_num

theorem ptsSum_nil (f : Nat → ℤ) : ptsSum ([] : List (Nat × G)) f = 0 := rfl

theorem ptsSum_cons (pr : Nat × G) (ps : List (Nat × G)) (f : Nat → ℤ) :
    ptsSum (pr :: ps) f = f pr.1 • pr.2 + ptsSum ps f := by
  simp [ptsSum]

theorem ptsSum_add (ps : List (Nat × G)) (f h : Nat → ℤ) :
    ptsSum ps (fun a => f a + h a) = ptsSum ps f + ptsSum ps h := by
  induction ps with
  | nil => simp [ptsSum_nil]
  | cons pr ps ih => rw [ptsSum_cons, ptsSum_cons, ptsSum_cons, ih, add_smul]; abel

theorem smul_ptsSum (z : ℤ) (ps : List (Nat × G)) (f : Nat → ℤ) :
    z • ptsSum ps f = ptsSum ps (fun a => z * f a) := by
  induction ps with
  | nil => simp [ptsSum_nil]
  | cons pr ps ih => rw [ptsSum_cons, ptsSum_cons, smul_add, ih, mul_smul]

theorem doubleN_smul (k : Nat) : ∀ x : G, doubleN k x = (2 ^ k : ℤ) • x := by
  induction k with
  | zero => intro x; simp [doubleN]
  | succ k ih =>
    intro x
    rw [doubleN, ih, pointDouble, pow_succ]
    rw [show ((2:ℤ) ^ k * 2) = 2 ^ k * 2 by ring, mul_smul, two_smul]

theorem addsAt_eq (ps : List (Nat × G)) (m : Nat) (hm : 1 ≤ m) :
    ∀ r : G, (∀ pr ∈ ps, pr.1 < 2 ^ 256) →
      addsAt ps (5 * m) r = r + ptsSum ps (fun a => sdig 5 (wval 5 a m)) := by
  induction ps with
  | nil =>
    intro r _
    simp [addsAt, ptsSum_nil]
  | cons pr ps ih =>
    intro r hb
    rw [addsAt, List.foldl_cons, ← addsAt, ih _ (fun q hq => hb q (List.mem_cons_of_mem pr hq)),
      ptsSum_cons, pointAdd, wvalMid5_eq pr.1 m hm,
      signedSelect5_eq pr.2 _ (show wval 5 pr.1 m < 64 from Nat.mod_lt _ (by norm_num))]
    abel

theorem wmLoop_last (ps : List (Nat × G)) :
    ∀ r : G, (∀ pr ∈ ps, pr.1 < 2 ^ 256) →
      wmLoop ps 0 r = r + ptsSum ps (fun a => sdig 5 (wval 5 a 0)) := by
  induction ps with
  | nil =>
    intro r _
    simp [wmLoop, ptsSum_nil]
  | cons pr ps ih =>
    intro r hb
    have hstep : wmLoop (pr :: ps) 0 r
        = wmLoop ps 0 (pointAdd r (signedSelect5 pr.2 (booth_recode_w5 (wvalLast5 pr.1)))) := rfl
    rw [hstep, ih _ (fun q hq => hb q (List.mem_cons_of_mem pr hq)),
      ptsSum_cons, pointAdd, wvalLast5_eq,
      signedSelect5_eq pr.2 _ (show wval 5 pr.1 0 < 64 from Nat.mod_lt _ (by norm_num))]
    abel

theorem wmLoop_eq (ps : List (Nat × G)) (hb : ∀ pr ∈ ps, pr.1 < 2 ^ 256) (n : Nat) :
    ∀ r : G, wmLoop ps n r = (2 ^ (5 * n) : ℤ) • r + ptsSum ps (fun a => sdSum 5 a (n + 1)) := by
  induction n with
  | zero =>
    intro r
    rw [wmLoop_last ps r hb]
    congr 1
    · simp
    · apply congrArg
      funext a
      simp [sdSum, Finset.sum_range_one]
  | succ n ih =>
    intro r
    have hstep : wmLoop ps (n + 1) r = wmLoop ps n (doubleN 5 (addsAt ps (5 * (n + 1)) r)) := rfl
    have hpow : ((2 : ℤ) ^ (5 * n)) * 2 ^ 5 = 2 ^ (5 * (n + 1)) := by
      rw [← pow_add, show 5 * n + 5 = 5 * (n + 1) by omega]
    rw [hstep, ih, doubleN_smul, addsAt_eq ps (n + 1) (by omega) r hb,
      smul_add, smul_add, smul_smul, smul_smul, smul_ptsSum, hpow, add_assoc, ← ptsSum_add]
    congr 1
    apply congrArg
    funext a
    conv_rhs => rw [sdSum, Finset.sum_range_succ, ← sdSum]
    rw [show 5 * (n + 1) = 5 * n + 5 by omega, pow_add]
    ring

theorem ptsSum_congr (ps : List (Nat × G)) (f h : Nat → ℤ)
    (hfg : ∀ pr ∈ ps, f pr.1 = h pr.1) : ptsSum ps f = ptsSum ps h := by
  unfold ptsSum
  congr 1
  apply List.map_congr_left
  intro pr hpr
  rw [hfg pr hpr]

theorem seed_select (P : G) (v : Nat) (hv : v < 32) :
    select_w5 P (booth_recode_w5 v >>> 1) = sdig 5 v • P := by
  have h1 : booth_recode_w5 v >>> 1 = v / 2 + v % 2 := by revert v hv; decide
  have h2 : sdig 5 v = ((v / 2 + v % 2 : Nat) : ℤ) := by
    rw [sdig, show v >>> 5 = 0 by
      rw [Nat.shiftRight_eq_div_pow]
      exact Nat.div_eq_of_lt (by omega)]
    push_cast
    ring
  rw [h1, select_w5_smul P _ (by omega), h2]

theorem seed_eq (P : G) (a : Nat) (ha : a < 2 ^ 256) :
    select_w5 P (booth_recode_w5 (wvalFirst a) >>> 1) = sdig 5 (wval 5 a 51) • P := by
  rw [wvalFirst_eq a ha]
  apply seed_select
  have h1 : 2 * a < 2 ^ 257 := by omega
  have h2 : (2 * a) >>> (5 * 51) < 4 := by
    rw [Nat.shiftRight_eq_div_pow]
    apply Nat.div_lt_of_lt_mul
    omega
  have h3 : wval 5 a 51 ≤ (2 * a) >>> (5 * 51) := Nat.mod_le _ _
  omega

theorem windowedMulN_eq (first : Nat × G) (rest : List (Nat × G))
    (hb : ∀ pr ∈ first :: rest, pr.1 < 2 ^ 256) :
    windowedMulN first rest = ptsSum (first :: rest) (fun a => (a : ℤ)) := by
  have hbr : ∀ pr ∈ rest, pr.1 < 2 ^ 256 :=
    fun pr hpr => hb pr (List.mem_cons_of_mem first hpr)
  have h0 : select_w5 first.2 (booth_recode_w5 (wvalFirst first.1) >>> 1)
      = sdig 5 (wval 5 first.1 51) • first.2 :=
    seed_eq first.2 first.1 (hb first (List.mem_cons_self first rest))
  unfold windowedMulN
  rw [h0, show (255 : Nat) = 5 * 51 by norm_num,
    addsAt_eq rest 51 (by norm_num) _ hbr,
    wmLoop_eq (first :: rest) hb 50, doubleN_smul, smul_smul]
  rw [← ptsSum_cons first rest (fun a => sdig 5 (wval 5 a 51)),
    show ((2 : ℤ) ^ (5 * 50) * 2 ^ 5) = 2 ^ 255 by ring, smul_ptsSum, ← ptsSum_add]
  apply ptsSum_congr
  intro pr hpr
  have hlt := hb pr hpr
  rw [← sdSum_self 5 52 pr.1 hlt (by norm_num), show (52 : Nat) = 51 + 1 by norm_num,
    show (50 + 1 : Nat) = 51 by norm_num]
  conv_rhs => rw [sdSum, Finset.sum_range_succ, ← sdSum]
  rw [show (5 * 51 : Nat) = 255 by norm_num]
  ring

theorem genAffine_signed (g : G) (row v : Nat) (hv : v < 256)
    (h0 : booth_recode_w7 v >>> 1 ≠ 0) :
    genAffine g row (booth_recode_w7 v) = some ((sdig 7 v * 2 ^ (7 * row)) • g) := by
  have hd := booth_w7_digit v hv
  rw [genAffine, if_neg h0]
  rw [signedDigit] at hd
  rcases Nat.mod_two_eq_zero_or_one (booth_recode_w7 v) with h | h
  · rw [if_neg (by omega)]
    rw [if_neg (by omega), one_mul] at hd
    rw [← hd]
    congr 1
    push_cast
    ring_nf
  · rw [if_pos h]
    rw [if_pos h] at hd
    rw [← hd]
    congr 1
    rw [← neg_smul]
    congr 1
    push_cast
    ring_nf

theorem add_affine_digit (g y : G) (row v : Nat) (hv : v < 256) :
    ecp_nistz256_point_add_affine (JRep.ok y) (genAffine g row (booth_recode_w7 v))
      = JRep.ok (y + (sdig 7 v * 2 ^ (7 * row)) • g) := by
  by_cases h0 : booth_recode_w7 v >>> 1 = 0
  · have hz : sdig 7 v = 0 := by
      have hd := booth_w7_digit v hv
      rw [signedDigit, h0] at hd
      simp at hd
      omega
    rw [genAffine, if_pos h0, hz]
    simp [ecp_nistz256_point_add_affine]
  · rw [genAffine_signed g row v hv h0]
    rfl

theorem seedFast_eq (g : G) (v : Nat) (hv : v < 256)
    (h0 : booth_recode_w7 v >>> 1 ≠ 0) :
    seedFast g (booth_recode_w7 v) = JRep.ok ((sdig 7 v * 2 ^ (7 * 0)) • g) := by
  rw [seedFast, genAffine_signed g 0 v hv h0]

theorem wval7_lt (a m : Nat) : wval 7 a m < 256 := Nat.mod_lt _ (by norm_num)

theorem fast_foldl (g x : G) (a : Nat) (n : Nat) (hn : n ≤ 36) :
    (List.range n).foldl
      (fun p i => ecp_nistz256_point_add_affine p
        (genAffine g (i + 1) (booth_recode_w7 (wvalMid7 a (7 * (i + 1)))))) (JRep.ok x)
    = JRep.ok (x + (∑ m ∈ Finset.range n, sdig 7 (wval 7 a (m + 1)) * 2 ^ (7 * (m + 1))) • g) := by
  induction n with
  | zero => simp
  | succ n ih =>
    rw [List.range_succ, List.foldl_append, ih (by omega), List.foldl_cons, List.foldl_nil,
      wvalMid7_eq a (n + 1) (by omega),
      add_affine_digit g _ (n + 1) (wval 7 a (n + 1)) (wval7_lt a (n + 1)),
      Finset.sum_range_succ, add_smul, add_assoc]

theorem booth_w7_mag_ne_zero (v : Nat) (hv : v < 256) (h0 : v ≠ 0) (h255 : v ≠ 255) :
    booth_recode_w7 v >>> 1 ≠ 0 := by
  revert v hv h0 h255; decide

theorem fastPath_eq (g : G) (a : Nat) (ha : a < 2 ^ 256) (hm : a % 128 ≠ 0) :
    fastPath g a = JRep.ok ((a : ℤ) • g) := by
  have hv0 : wval 7 a 0 = 2 * (a % 128) := by
    rw [wval, Nat.mul_zero, Nat.shiftRight_zero,
      show (2 : Nat) ^ (7 + 1) = 2 * 128 by norm_num, Nat.mul_mod_mul_left]
  have h128 : a % 128 < 128 := Nat.mod_lt _ (by norm_num)
  have hne0 : wval 7 a 0 ≠ 0 := by omega
  have hne255 : wval 7 a 0 ≠ 255 := by omega
  have hmag := booth_w7_mag_ne_zero (wval 7 a 0) (wval7_lt a 0) hne0 hne255
  rw [fastPath, wvalFirst7_eq, seedFast_eq g (wval 7 a 0) (wval7_lt a 0) hmag,
    fast_foldl g _ a 36 (le_refl 36), ← add_smul]
  congr 1
  have h : (∑ m ∈ Finset.range 37, sdig 7 (wval 7 a m) * 2 ^ (7 * m)) = (a : ℤ) := by
    have h2 := sdSum_self 7 37 a ha (by norm_num)
    rw [sdSum] at h2
    exact h2
  rw [← h, Finset.sum_range_succ' (fun m => sdig 7 (wval 7 a m) * 2 ^ (7 * m)) 36]
  rw [add_comm]

theorem reduceScalar_lt (k : ℤ) : reduceScalar k < 2 ^ 256 := by
  rw [reduceScalar]
  split
  · have h1 : (0 : ℤ) < (nP256 : ℤ) := by norm_num [nP256]
    have h2 := Int.emod_lt_of_pos k h1
    have h3 : (nP256 : ℤ) < 2 ^ 256 := by norm_num [nP256]
    omega
  · omega

theorem reduceScalar_coe (k : Nat) (hk : k < 2 ^ 256) : reduceScalar (k : ℤ) = k := by
  rw [reduceScalar]
  split
  · omega
  · omega

theorem windowedMul_single (g : G) (k : Nat) (hk : k < 2 ^ 256) :
    ecp_nistz256_windowed_mul ((k : ℤ), g) ([] : List (ℤ × G)) = (k : ℤ) • g := by
  rw [ecp_nistz256_windowed_mul, List.map_nil,
    windowedMulN_eq ((reduceScalar (k : ℤ), g)) []
      (by
        intro pr hpr
        rcases List.mem_singleton.mp hpr with rfl
        exact reduceScalar_lt _),
    ptsSum_cons, ptsSum_nil, reduceScalar_coe k hk, add_zero]

/-- C4 amended: for every reduced scalar `k` that is not a multiple of 128
(the scalars whose first 7-bit window has nonzero magnitude), the generator
fast path produces a point representing exactly the result of forcing the
general w=5 windowed path on the generator with the same scalar. -/
theorem fast_path_matches_forced_general (g : G) (k : Nat) (hk : k < 2 ^ 256)
    (hm : k % 128 ≠ 0) :
    fastPath g k = JRep.ok (ecp_nistz256_windowed_mul ((k : ℤ), g) []) := by
  rw [fastPath_eq g k hk hm, windowedMul_single g k hk]

/-- C9: a call with no base scalar and no auxiliary points succeeds with the
point at infinity, and asking that result's affine coordinates fails with
PointAtInfinity (the infinity point has `Z = 0`). -/
theorem multiply_empty_yields_infinity (g : G) (genStandard : Bool) :
    ecp_nistz256_points_mul g genStandard none [] = Except.ok (JRep.ok 0) ∧
    (∀ X Y : Fp, ecp_nistz256_get_affine X Y 0 true = Except.error ECerr.pointAtInfinity) := by
  refine ⟨rfl, fun X Y => ?_⟩
  rw [ecp_nistz256_get_affine, if_pos rfl]

/-- C10: with a base scalar present and the fast path unavailable, the call
fails with MallocFailure whenever more than `0xffffff` auxiliary points are
passed, before any point arithmetic; when the fast path handles the base
scalar no such bound is enforced and the call succeeds for any number of
points. -/
theorem points_mul_num_bound (g : G) (k : ℤ) (aux : List (ℤ × G)) :
    (0xffffff < aux.length →
      ecp_nistz256_points_mul g false (some k) aux = Except.error ECerr.mallocFailure) ∧
    (∃ p, ecp_nistz256_points_mul g true (some k) aux = Except.ok p) := by
  constructor
  · intro h
    rw [show ecp_nistz256_points_mul g false (some k) aux
        = if 0xffffff < aux.length then Except.error ECerr.mallocFailure
          else Except.ok (JRep.ok (windowedList (aux ++ [(k, g)]))) from rfl,
      if_pos h]
  · rcases aux with _ | ⟨first, rest⟩
    · exact ⟨_, rfl⟩
    · exact ⟨_, rfl⟩

end PointEngineProofs

/-- Witness for the amended C4 at the scalar 5 and a concrete group. -/
theorem fast_path_matches_forced_general_witness :
    fastPath (1 : ℤ) 5 = JRep.ok (ecp_nistz256_windowed_mul ((5 : ℤ), (1 : ℤ)) []) :=
  fast_path_matches_forced_general (1 : ℤ) 5 (by norm_num) (by norm_num)

/-- Witness for C10 with 2^24 auxiliary points. -/
theorem points_mul_num_bound_witness :
    ecp_nistz256_points_mul (1 : ℤ) false (some 0)
        (List.replicate 16777216 ((0 : ℤ), (0 : ℤ)))
      = Except.error ECerr.mallocFailure :=
  (points_mul_num_bound (1 : ℤ) 0 (List.replicate 16777216 ((0 : ℤ), (0 : ℤ)))).1
    (by rw [List.length_replicate]; norm_num)


end Nistz256
